import Mathlib

/-!
Verification of the calendar-rendering core of sn0int (src/cmd/cal_cmd.rs).

Strings are modelled as lists of characters; every rendering function below
builds the same character sequence as the Rust code builds via String pushes.
The external date library (chrono) is modelled by the standard proleptic
Gregorian calendar: leap years, days per month, and the day of the week via
the Zeller congruence. Floating point arithmetic in the activity grader is
modelled by exact rational arithmetic, which agrees with f64 on the whole
range the program exercises.
-/

/-- Number of newline characters in a character list. -/
def nlCount : List Char → ℕ
  | [] => 0
  | c :: rest => (if c = '\n' then 1 else 0) + nlCount rest

/-- Splitting a character list at newline characters, keeping empty pieces,
matching str::split with a newline pattern. -/
def splitNl : List Char → List (List Char)
  | [] => [[]]
  | c :: rest =>
    if c = '\n' then [] :: splitNl rest
    else
      match splitNl rest with
      | [] => [[c]]
      | l :: ls => (c :: l) :: ls

/-- The lines of a string as Rust str::lines returns them: an empty string has
no lines, and a trailing newline does not produce a final empty line. -/
def linesRust (s : List Char) : List (List Char) :=
  match s.getLast? with
  | none => []
  | some c => if c = '\n' then (splitNl s).dropLast else splitNl s

/-- Joining pieces with a separator between consecutive pieces. -/
def joinSep (sep : List Char) : List (List Char) → List Char
  | [] => []
  | [x] => x
  | x :: y :: xs => x ++ sep ++ joinSep sep (y :: xs)

/-- A calendar date, as the chrono NaiveDate used by the program: a proleptic
Gregorian year together with a month ordinal and day ordinal. -/
structure NaiveDate where
  year : ℤ
  month : ℕ
  day : ℕ
deriving DecidableEq, Repr

/-- Calendar order on dates (chrono orders dates chronologically, which is the
lexicographic order on year, month, day). -/
def NaiveDate.before (a b : NaiveDate) : Prop :=
  a.year < b.year ∨ (a.year = b.year ∧ (a.month < b.month ∨
    (a.month = b.month ∧ a.day < b.day)))

instance : DecidablePred fun p : NaiveDate × NaiveDate => p.1.before p.2 := by
  intro p; unfold NaiveDate.before; infer_instance

instance (a b : NaiveDate) : Decidable (a.before b) := by
  unfold NaiveDate.before; infer_instance

/-- Leap years of the proleptic Gregorian calendar, as chrono computes them. -/
def isLeapYear (y : ℤ) : Bool :=
  (y % 4 == 0 && y % 100 != 0) || y % 400 == 0

/-- Number of days of a month; the source computes this with a chrono date
difference (fn days_in_month), which equals the Gregorian table. -/
def days_in_month (year : ℤ) (month : ℕ) : ℕ :=
  if month = 2 then (if isLeapYear year then 29 else 28)
  else if month = 4 ∨ month = 6 ∨ month = 9 ∨ month = 11 then 30
  else 31

/-- Day of the week of the first day of a month, counted as days from Sunday
(0 = Sunday .. 6 = Saturday); this and the two definitions after it model
the chrono weekday computation (Datelike::weekday together with
num_days_from_sunday) via the Zeller congruence. -/
def zellerShifted (year : ℤ) (month : ℕ) : ℤ × ℤ :=
  if month ≤ 2 then (year - 1, (month : ℤ) + 12) else (year, (month : ℤ))

def zellerH (year : ℤ) (month : ℕ) : ℤ :=
  (1 + (13 * ((zellerShifted year month).2 + 1)) / 5 + (zellerShifted year month).1 +
    (zellerShifted year month).1 / 4 - (zellerShifted year month).1 / 100 +
    (zellerShifted year month).1 / 400) % 7

def firstWeekdayFromSunday (year : ℤ) (month : ℕ) : ℕ :=
  ((zellerH year month + 6) % 7).toNat

/-- Decimal digits of a natural number, most significant first. -/
def natDigitsAux : ℕ → List Char → List Char
  | 0, acc => acc
  | n + 1, acc => natDigitsAux ((n + 1) / 10) (Nat.digitChar ((n + 1) % 10) :: acc)
decreasing_by exact Nat.div_lt_self (Nat.succ_pos n) (by norm_num)

/-- Decimal representation of a natural number. -/
def natDigits (n : ℕ) : List Char :=
  if n = 0 then ['0'] else natDigitsAux n []

/-- The year as the chrono %Y format prints it: zero padded to four digits,
with a leading minus sign for negative years. -/
def yearStr (y : ℤ) : List Char :=
  let ds := natDigits y.natAbs
  let ds := List.replicate (4 - ds.length) '0' ++ ds
  if y < 0 then '-' :: ds else ds

/-- English month names as the chrono %B format prints them. -/
def monthName : ℕ → List Char
  | 1 => "January".data
  | 2 => "February".data
  | 3 => "March".data
  | 4 => "April".data
  | 5 => "May".data
  | 6 => "June".data
  | 7 => "July".data
  | 8 => "August".data
  | 9 => "September".data
  | 10 => "October".data
  | 11 => "November".data
  | 12 => "December".data
  | _ => []

/-- Centering in a field of 21 columns, as the Rust format width specifier
does it: the extra space of an odd pad goes to the right. -/
def center21 (s : List Char) : List Char :=
  if 21 ≤ s.length then s
  else List.replicate ((21 - s.length) / 2) ' ' ++ s ++
    List.replicate ((21 - s.length) - (21 - s.length) / 2) ' '

/-- A day number right aligned in two columns, as the Rust width 2 format
prints day numbers between 1 and 99. -/
def pad2 (d : ℕ) : List Char :=
  if d < 10 then [' ', Nat.digitChar d]
  else [Nat.digitChar (d / 10), Nat.digitChar (d % 10)]

def ansiReset : List Char := "\x1b[0m".data

def ansiBoldHash : List Char := "\x1b[1m#".data

/-- The five activity shading levels. -/
inductive ActivityGrade
  | none
  | one
  | two
  | three
  | four
deriving DecidableEq, Repr

/-- Escape sequence of each grade (ActivityGrade::as_term_str). -/
def ActivityGrade.as_term_str : ActivityGrade → List Char
  | ActivityGrade.none => "\x1b[97m\x1b[48;5;238m".data
  | ActivityGrade.one => "\x1b[30m\x1b[48;5;148m".data
  | ActivityGrade.two => "\x1b[30m\x1b[48;5;71m".data
  | ActivityGrade.three => "\x1b[97m\x1b[48;5;34m".data
  | ActivityGrade.four => "\x1b[97m\x1b[48;5;22m".data

/-- Intensity rank of a grade, for stating monotonicity. -/
def ActivityGrade.rank : ActivityGrade → ℕ
  | ActivityGrade.none => 0
  | ActivityGrade.one => 1
  | ActivityGrade.two => 2
  | ActivityGrade.three => 3
  | ActivityGrade.four => 4

/-- Lookup in an association list, modelling HashMap get. -/
def lookupD : List (NaiveDate × ℕ) → NaiveDate → Option ℕ
  | [], _ => Option.none
  | p :: rest, k => if p.1 = k then some p.2 else lookupD rest k

/-- The render context (struct Context): the histogram map, the maximum count
and the current date. -/
structure Context where
  events : List (NaiveDate × ℕ)
  max : ℕ
  today : NaiveDate

def Context.is_today (ctx : Context) (date : NaiveDate) : Prop :=
  ctx.today = date

instance (ctx : Context) (d : NaiveDate) : Decidable (ctx.is_today d) := by
  unfold Context.is_today; infer_instance

def Context.is_future (ctx : Context) (date : NaiveDate) : Prop :=
  ctx.today.before date

instance (ctx : Context) (d : NaiveDate) : Decidable (ctx.is_future d) := by
  unfold Context.is_future; infer_instance

/-- The activity grader (Context::activity_for_day). The f64 arithmetic of the
source is modelled by exact rational arithmetic; on every state the program
builds (counts at least 1 and at most max, max positive when the map is not
empty, see the setup_graph_map theorems) the two agree. -/
def Context.activity_for_day (ctx : Context) (date : NaiveDate) : ActivityGrade :=
  match lookupD ctx.events date with
  | some events =>
    let maxQ : ℚ := ctx.max
    let eventsQ : ℚ := events
    let step : ℚ := maxQ / 4
    let x : ℚ := eventsQ / step
    if x ≤ 1 then ActivityGrade.one
    else if x ≤ 2 then ActivityGrade.two
    else if x ≤ 3 then ActivityGrade.three
    else ActivityGrade.four
  | Option.none => ActivityGrade.none

/-- A parsed date argument (enum DateArg): a month ordinal or a bare number. -/
inductive DateArg
  | Month : ℕ → DateArg
  | Num : ℤ → DateArg
deriving DecidableEq, Repr

/-- A resolved date specification (enum DateSpec). -/
inductive DateSpec
  | Year : ℤ → DateSpec
  | YearMonth : ℤ → ℕ → DateSpec
  | YearMonthContext : ℤ → ℕ → ℕ → DateSpec
deriving DecidableEq, Repr

/-- Resolver failures (the two bail! sites of DateSpec::from_args). -/
inductive CalError
  | tooManyArgs
  | invalidCombination
deriving DecidableEq, Repr

/-- The date-spec resolver (DateSpec::from_args). The source obtains the
current date with a Utc::today() call inside the function body; that ambient
clock read is embedded here as the explicit parameter today. -/
def DateSpec.from_args (args : List DateArg) (context : Option ℕ)
    (today : NaiveDate) : Except CalError DateSpec :=
  if 2 < args.length then Except.error CalError.tooManyArgs
  else
    match args[0]?, args[1]?, context with
    | Option.none, _, Option.none =>
      Except.ok (DateSpec.YearMonth today.year today.month)
    | Option.none, _, some c =>
      Except.ok (DateSpec.YearMonthContext today.year today.month c)
    | some (DateArg.Month m), Option.none, Option.none =>
      Except.ok (DateSpec.YearMonth today.year m)
    | some (DateArg.Num y), Option.none, Option.none =>
      Except.ok (DateSpec.Year y)
    | some (DateArg.Month m), some (DateArg.Num y), Option.none =>
      Except.ok (DateSpec.YearMonth y m)
    | some (DateArg.Num y), some (DateArg.Month m), Option.none =>
      Except.ok (DateSpec.YearMonth y m)
    | some (DateArg.Month m), Option.none, some c =>
      Except.ok (DateSpec.YearMonthContext today.year m c)
    | some (DateArg.Month m), some (DateArg.Num y), some c =>
      Except.ok (DateSpec.YearMonthContext y m c)
    | some (DateArg.Num y), some (DateArg.Month m), some c =>
      Except.ok (DateSpec.YearMonthContext y m c)
    | _, _, _ => Except.error CalError.invalidCombination

/-- Start of the rendered range (DateSpec::start). The context count is
reduced with unsigned division and remainder by 12, exactly as the source
does with u32 arithmetic. -/
def DateSpec.start : DateSpec → NaiveDate
  | DateSpec.Year year => ⟨year, 1, 1⟩
  | DateSpec.YearMonth year month => ⟨year, month, 1⟩
  | DateSpec.YearMonthContext year month context =>
    if context % 12 ≥ month then
      ⟨year - (context / 12 : ℕ) - 1, 12 - context % 12 + month, 1⟩
    else
      ⟨year - (context / 12 : ℕ), month - context % 12, 1⟩

/-- End of the rendered range, exclusive (DateSpec::end). -/
def DateSpec.stop : DateSpec → NaiveDate
  | DateSpec.Year year => ⟨year + 1, 1, 1⟩
  | DateSpec.YearMonth year month =>
    if month = 12 then ⟨year + 1, 1, 1⟩ else ⟨year, month + 1, 1⟩
  | DateSpec.YearMonthContext year month _ =>
    if month = 12 then ⟨year + 1, 1, 1⟩ else ⟨year, month + 1, 1⟩

/-- MONTH_LINES constant of the source. -/
def MONTH_LINES : ℕ := 7

/-- State of the day loop of the month renderer: the accumulated text, the
width written on the current row, and the current weekday. -/
structure MonthSt where
  w : List Char
  weekWritten : ℕ
  curWeekDay : ℕ

/-- The characters one day cell appends: the grade escape when the day is
not in the future, the today marker or a space, the two column day number,
and the style reset. -/
def dayCellText (ctx : Context) (year : ℤ) (month : ℕ) (d : ℕ) : List Char :=
  (if ctx.is_future ⟨year, month, d⟩ then []
   else (ctx.activity_for_day ⟨year, month, d⟩).as_term_str) ++
    (if ctx.is_today ⟨year, month, d⟩ then ansiBoldHash else [' ']) ++
    pad2 d ++ ansiReset

/-- One iteration of the day loop of DateSpec::to_term_string for a single
month: append the day cell of day d, then handle the end of the week (a
newline after Saturday except on the final day, and the row width counter
reset). -/
def dayCell (ctx : Context) (year : ℤ) (month : ℕ) (days : ℕ)
    (st : MonthSt) (d : ℕ) : MonthSt :=
  if st.curWeekDay = 6 then
    { w := st.w ++ dayCellText ctx year month d ++ (if d ≠ days then ['\n'] else []),
      weekWritten := 0,
      curWeekDay := (st.curWeekDay + 1) % 7 }
  else
    { w := st.w ++ dayCellText ctx year month d,
      weekWritten := st.weekWritten + 3,
      curWeekDay := (st.curWeekDay + 1) % 7 }

/-- The centered month-and-year header line of a month block. -/
def monthHeader (year : ℤ) (month : ℕ) : List Char :=
  center21 (monthName month ++ [' '] ++ yearStr year) ++ ['\n']

/-- The fixed weekday header line of a month block. -/
def weekdayHeader : List Char := " Su Mo Tu We Th Fr Sa".data ++ ['\n']

/-- The state of the day loop before the first day: the two header lines,
the blank lead cells of the first week, and the initial row width and
weekday. -/
def monthSt0 (year : ℤ) (month : ℕ) : MonthSt :=
  { w := monthHeader year month ++ weekdayHeader ++
      (List.replicate (firstWeekdayFromSunday year month) "   ".data).flatten,
    weekWritten := firstWeekdayFromSunday year month * 3,
    curWeekDay := firstWeekdayFromSunday year month }

/-- The state of the day loop after the last day of the month. -/
def monthFoldSt (ctx : Context) (year : ℤ) (month : ℕ) : MonthSt :=
  (List.range' 1 (days_in_month year month)).foldl
    (dayCell ctx year month (days_in_month year month)) (monthSt0 year month)

/-- The width written on the final row of a month block, as the day loop
leaves it: three columns per day cell of the last started week. -/
def monthWeekWritten (year : ℤ) (month : ℕ) : ℕ :=
  3 * ((firstWeekdayFromSunday year month + days_in_month year month) % 7)

/-- The single-month branch of DateSpec::to_term_string: header line, weekday
line, then one row per calendar week, with the final row right padded to 21
columns when it does not end on Saturday. -/
def monthTermString (ctx : Context) (year : ℤ) (month : ℕ) : List Char :=
  if (monthFoldSt ctx year month).weekWritten ≠ 0 then
    (monthFoldSt ctx year month).w ++
      List.replicate (21 - (monthFoldSt ctx year month).weekWritten) ' '
  else (monthFoldSt ctx year month).w

/-- A blank month line of 21 columns used by the compositor. -/
def blank21 : List Char := List.replicate 21 ' '

/-- The column gutter between merged months. -/
def gutter3 : List Char := "   ".data

/-- The row loop of merge_months: emit n + 1 merged rows, taking the front
line of every month block (or a 21 column blank once a block is exhausted)
joined by the gutter, with a newline after every row but the last. -/
def mergeRowsFrom (bs : List (List (List Char))) : ℕ → List Char
  | 0 => joinSep gutter3 (bs.map (fun b => b.headD blank21))
  | n + 1 =>
    joinSep gutter3 (bs.map (fun b => b.headD blank21)) ++
      '\n' :: mergeRowsFrom (bs.map List.tail) n

/-- fn merge_months: merge the blocks of the given months side by side into
MONTH_LINES + 1 rows. -/
def merge_months (ctx : Context) (months : List (ℤ × ℕ)) : List Char :=
  mergeRowsFrom
    (months.map (fun p => linesRust (monthTermString ctx p.1 p.2))) MONTH_LINES

/-- Slices of at most three months (the chunks(3) call of chunk_months). -/
def chunks3 : List α → List (List α)
  | [] => []
  | [a] => [[a]]
  | [a, b] => [[a, b]]
  | a :: b :: c :: rest => [a, b, c] :: chunks3 rest

/-- fn chunk_months: merge each group of three months and join the groups
with a single newline between consecutive groups. -/
def chunk_months (ctx : Context) (months : List (ℤ × ℕ)) : List Char :=
  ((chunks3 months).map (merge_months ctx)).foldl
    (fun a b => if a = [] then a ++ b else a ++ '\n' :: b) []

/-- The months enumerated by the YearMonthContext branch of to_term_string:
n consecutive months starting at the given year and month. -/
def monthSeq (year : ℤ) (month : ℕ) : ℕ → List (ℤ × ℕ)
  | 0 => []
  | n + 1 =>
    (year, month) ::
      (if month = 12 then monthSeq (year + 1) 1 n else monthSeq year (month + 1) n)

/-- DateSpec::to_term_string. -/
def DateSpec.to_term_string (ds : DateSpec) (ctx : Context) : List Char :=
  match ds with
  | DateSpec.Year year =>
    chunk_months ctx ((List.range' 1 12).map (fun m => (year, m)))
  | DateSpec.YearMonth year month => monthTermString ctx year month
  | DateSpec.YearMonthContext year month context =>
    let s := DateSpec.start (DateSpec.YearMonthContext year month context)
    chunk_months ctx (monthSeq s.year s.month (context + 1))

/-- Tail recursive newline counter, used to evaluate concrete renders. -/
def nlCountTR (acc : ℕ) : List Char → ℕ
  | [] => acc
  | c :: rest => nlCountTR (if c = '\n' then acc + 1 else acc) rest

/-- Insertion into an association list with HashMap insert semantics: replace
the value when the key is present, append otherwise. -/
def insertKV (m : List (NaiveDate × ℕ)) (k : NaiveDate) (v : ℕ) :
    List (NaiveDate × ℕ) :=
  if (lookupD m k).isSome then
    m.map (fun p => if p.1 = k then (k, v) else p)
  else m ++ [(k, v)]

/-- State of the scan loop of setup_graph_map. -/
structure GraphSt where
  cur : Option NaiveDate
  ctr : ℕ
  max : ℕ
  map : List (NaiveDate × ℕ)

/-- One iteration of the scan loop of setup_graph_map, consuming the calendar
date of one event. -/
def graphStep (st : GraphSt) (date : NaiveDate) : GraphSt :=
  match st.cur with
  | some cur =>
    if date = cur then { st with ctr := st.ctr + 1 }
    else
      { cur := some date, ctr := 1,
        max := if st.ctr > st.max then st.ctr else st.max,
        map := insertKV st.map cur st.ctr }
  | Option.none => { st with cur := some date, ctr := 1 }

/-- The commit of the final run after the scan loop of setup_graph_map. -/
def finishGraph (st : GraphSt) : List (NaiveDate × ℕ) × ℕ :=
  if 0 < st.ctr then
    match st.cur with
    | some cur =>
      (insertKV st.map cur st.ctr, if st.ctr > st.max then st.ctr else st.max)
    | Option.none => (st.map, st.max)
  else (st.map, st.max)

/-- fn setup_graph_map: one pass over the event dates, producing the
date-to-count map and the maximum count. Each event is represented by the
calendar date of its timestamp, the only part the source reads. -/
def setup_graph_map (events : List NaiveDate) : List (NaiveDate × ℕ) × ℕ :=
  finishGraph (events.foldl graphStep ⟨Option.none, 0, 0, []⟩)

/-- The event list described by a run decomposition: for every pair (d, n) in
order, n consecutive events dated d. -/
def runsFlatten : List (NaiveDate × ℕ) → List NaiveDate
  | [] => []
  | p :: rest => List.replicate p.2 p.1 ++ runsFlatten rest

/-- Committing one completed run to the map and the running maximum. -/
def specCommit (acc : List (NaiveDate × ℕ) × ℕ) (p : NaiveDate × ℕ) :
    List (NaiveDate × ℕ) × ℕ :=
  (insertKV acc.1 p.1 p.2, if p.2 > acc.2 then p.2 else acc.2)

/-- Number of events carrying a given date. -/
def countDate (d : NaiveDate) : List NaiveDate → ℕ
  | [] => 0
  | e :: rest => (if e = d then 1 else 0) + countDate d rest

/-- Modelled from the spec: shifting a month back by one calendar month,
wrapping below month 1 to December of the previous year. -/
def shiftBackOne (p : ℤ × ℕ) : ℤ × ℕ :=
  if p.2 = 1 then (p.1 - 1, 12) else (p.1, p.2 - 1)

/-- Modelled from the spec: shifting a month back by c calendar months. -/
def shiftBackMonths (p : ℤ × ℕ) : ℕ → ℤ × ℕ
  | 0 => p
  | c + 1 => shiftBackMonths (shiftBackOne p) c

/-- The grader thresholds as natural number comparisons: the real comparison
x at most k with x = count / (max / 4) is 4 * count at most k * max when
max is at least 1. -/
def natGrade (count maxCount : ℕ) : ActivityGrade :=
  if 4 * count ≤ maxCount then ActivityGrade.one
  else if 4 * count ≤ 2 * maxCount then ActivityGrade.two
  else if 4 * count ≤ 3 * maxCount then ActivityGrade.three
  else ActivityGrade.four

/-- Total month index of a year and month, used to reason about month
shifting: January of year 0 has index 0. -/
def monthIdx (y : ℤ) (m : ℕ) : ℤ := 12 * y + m - 1

/-- The year and month of a total month index. -/
def idxToYM (t : ℤ) : ℤ × ℕ := (t / 12, (t % 12).toNat + 1)

/-- The histogram invariant of the data model: every mapped count is at least
one and at most the stored maximum. -/
def histInv (ctx : Context) : Prop :=
  ∀ d c, lookupD ctx.events d = some c → 1 ≤ c ∧ c ≤ ctx.max

/-- Whether two date arguments have the same shape (both month tokens or both
bare numbers). -/
def sameKind : DateArg → DateArg → Bool
  | DateArg.Month _, DateArg.Month _ => true
  | DateArg.Num _, DateArg.Num _ => true
  | _, _ => false

/-- The argument shapes the resolver rejects with the invalid-combination
error: two tokens of the same kind, or a bare number with a context count. -/
def badCombo (args : List DateArg) (context : Option ℕ) : Prop :=
  (∃ a b, args = [a, b] ∧ sameKind a b = true) ∨
    (∃ n, args = [DateArg.Num n] ∧ context.isSome = true)

/-- Grading one recorded date carrying the given count under the given
maximum (mirrors the calc_activity_grade helper of the source tests). -/
def calc_activity_grade (cur mx : ℕ) : ActivityGrade :=
  Context.activity_for_day
    { events := [(⟨2020, 6, 6⟩, cur)], max := mx, today := ⟨2020, 6, 6⟩ }
    ⟨2020, 6, 6⟩

/-- A context with no recorded events whose current date lies before every
rendered day, used for concrete rendering evaluations. -/
def ctxQuiet : Context := { events := [], max := 0, today := ⟨1900, 1, 1⟩ }

/-- Keys of consecutive runs differ, tracked against the key of the
preceding run. -/
def runsChainOk : NaiveDate → List (NaiveDate × ℕ) → Prop
  | _, [] => True
  | c, p :: rest => p.1 ≠ c ∧ runsChainOk p.1 rest

/-- Row i of a merged month group: the i-th line of every month block (a 21
column blank once the block has no line i) joined by the 3 column gutter. -/
def mergeRowAt (ctx : Context) (g : List (ℤ × ℕ)) (i : ℕ) : List Char :=
  joinSep gutter3 (g.map (fun p =>
    ((linesRust (monthTermString ctx p.1 p.2)).drop i).headD blank21))

theorem nlCount_append (a b : List Char) :
    nlCount (a ++ b) = nlCount a + nlCount b := by
  induction a with
  | nil => simp [nlCount]
  | cons c rest ih => simp [nlCount, ih]; ring

theorem splitNl_ne_nil (s : List Char) : splitNl s ≠ [] := by
  cases s with
  | nil => simp [splitNl]
  | cons c rest =>
    simp only [splitNl]
    by_cases hc : c = '\n'
    · simp [hc]
    · simp only [hc, if_false]
      cases splitNl rest <;> simp

theorem splitNl_append_newline (a b : List Char) :
    splitNl (a ++ '\n' :: b) = splitNl a ++ splitNl b := by
  induction a with
  | nil => simp [splitNl]
  | cons c rest ih =>
    by_cases hc : c = '\n'
    · subst hc; simp [splitNl, ih]
    · simp only [List.cons_append, splitNl, hc, if_false, ih]
      rcases h : splitNl rest with _ | ⟨l, ls⟩
      · exact absurd h (splitNl_ne_nil rest)
      · rw [show rest.append ('\n' :: b) = rest ++ '\n' :: b from rfl, ih, h]; simp

theorem splitNl_of_no_newline (s : List Char) (h : nlCount s = 0) :
    splitNl s = [s] := by
  induction s with
  | nil => simp [splitNl]
  | cons c rest ih =>
    simp only [nlCount] at h
    by_cases hc : c = '\n'
    · simp [hc] at h
    · simp only [splitNl, hc, if_false]
      rw [ih (by omega)]

theorem length_splitNl (s : List Char) :
    (splitNl s).length = nlCount s + 1 := by
  induction s with
  | nil => simp [splitNl, nlCount]
  | cons c rest ih =>
    by_cases hc : c = '\n'
    · simp [splitNl, nlCount, hc, ih]; ring
    · simp only [splitNl, nlCount, hc, if_false]
      rcases h : splitNl rest with _ | ⟨l, ls⟩
      · exact absurd h (splitNl_ne_nil rest)
      · rw [h] at ih; simp at ih ⊢; omega

theorem mem_splitNl_no_newline (s : List Char) :
    ∀ l ∈ splitNl s, nlCount l = 0 := by
  induction s with
  | nil => intro l hl; simp [splitNl] at hl; simp [hl, nlCount]
  | cons c rest ih =>
    intro l hl
    by_cases hc : c = '\n'
    · simp [splitNl, hc] at hl
      rcases hl with h | h
      · simp [h, nlCount]
      · exact ih l h
    · simp only [splitNl, hc, if_false] at hl
      rcases h : splitNl rest with _ | ⟨x, xs⟩
      · exact absurd h (splitNl_ne_nil rest)
      · rw [h] at hl
        simp at hl
        rcases hl with h1 | h1
        · have hx : nlCount x = 0 := ih x (by rw [h]; simp)
          simp [h1, nlCount, hc, hx]
        · exact ih l (by rw [h]; simp [h1])

theorem getLast?_isSome_of_ne_nil (s : List Char) (h : s ≠ []) :
    s.getLast? ≠ none := by
  simp [List.getLast?_eq_none_iff, h]

theorem linesRust_eq_splitNl (s : List Char) (hne : s ≠ [])
    (hlast : s.getLast? ≠ some '\n') : linesRust s = splitNl s := by
  unfold linesRust
  rcases h : s.getLast? with _ | c
  · exact absurd h (getLast?_isSome_of_ne_nil s hne)
  · have : c ≠ '\n' := by intro hc; rw [hc] at h; exact hlast h
    simp [this]

theorem linesRust_length (s : List Char) (hne : s ≠ [])
    (hlast : s.getLast? ≠ some '\n') :
    (linesRust s).length = nlCount s + 1 := by
  rw [linesRust_eq_splitNl s hne hlast, length_splitNl]

theorem firstWeekdayFromSunday_lt (year : ℤ) (month : ℕ) :
    firstWeekdayFromSunday year month < 7 := by
  unfold firstWeekdayFromSunday
  have h1 : 0 ≤ (zellerH year month + 6) % 7 :=
    Int.emod_nonneg _ (by norm_num)
  have h2 : (zellerH year month + 6) % 7 < 7 :=
    Int.emod_lt_of_pos _ (by norm_num)
  omega

theorem nlCountTR_eq (s : List Char) : ∀ acc, nlCountTR acc s = acc + nlCount s := by
  induction s with
  | nil => intro acc; simp [nlCountTR, nlCount]
  | cons c rest ih =>
    intro acc
    by_cases hc : c = '\n' <;> simp [nlCountTR, nlCount, hc, ih] <;> omega

theorem rat_div_le_iff (c m k : ℕ) (hm : 1 ≤ m) :
    ((c : ℚ) / ((m : ℚ) / 4) ≤ (k : ℚ)) ↔ (4 * c ≤ k * m) := by
  have hm4 : (0 : ℚ) < (m : ℚ) / 4 := by
    have : (0 : ℚ) < (m : ℚ) := by exact_mod_cast hm
    positivity
  rw [div_le_iff₀ hm4, ← mul_div_assoc, le_div_iff₀ (by norm_num : (0 : ℚ) < 4)]
  rw [show (c : ℚ) * 4 = ((4 * c : ℕ) : ℚ) by push_cast; ring]
  rw [show (k : ℚ) * (m : ℚ) = ((k * m : ℕ) : ℚ) by push_cast; ring]
  exact Nat.cast_le

theorem activity_eq_natGrade (ctx : Context) (d : NaiveDate) (c : ℕ)
    (hl : lookupD ctx.events d = some c) (hm : 1 ≤ ctx.max) :
    ctx.activity_for_day d = natGrade c ctx.max := by
  unfold Context.activity_for_day
  rw [hl]
  have b1 : ((c : ℚ) / ((ctx.max : ℚ) / 4) ≤ 1) ↔ (4 * c ≤ 1 * ctx.max) := by
    have := rat_div_le_iff c ctx.max 1 hm; exact_mod_cast this
  have b2 : ((c : ℚ) / ((ctx.max : ℚ) / 4) ≤ 2) ↔ (4 * c ≤ 2 * ctx.max) := by
    have := rat_div_le_iff c ctx.max 2 hm; exact_mod_cast this
  have b3 : ((c : ℚ) / ((ctx.max : ℚ) / 4) ≤ 3) ↔ (4 * c ≤ 3 * ctx.max) := by
    have := rat_div_le_iff c ctx.max 3 hm; exact_mod_cast this
  simp only [natGrade, b1, b2, b3, one_mul]

theorem natGrade_rank_mono (a b m : ℕ) (hab : a ≤ b) :
    (natGrade a m).rank ≤ (natGrade b m).rank := by
  unfold natGrade
  split_ifs <;> simp [ActivityGrade.rank] <;> omega

theorem calc_activity_grade_eq (cur mx : ℕ) (hm : 1 ≤ mx) :
    calc_activity_grade cur mx = natGrade cur mx := by
  unfold calc_activity_grade
  exact activity_eq_natGrade _ _ cur (by simp [lookupD]) hm

/-- C1: for a date recorded with count c under observed maximum m (both at
least 1, c at most m), the grader computes step = m / 4 and x = c / step as
exact real numbers and buckets x at 1, 2 and 3; equivalently 4c is compared
against m, 2m and 3m; all twelve boundary examples of the spec hold. -/
theorem C1_grading_formula (ctx : Context) (d : NaiveDate) (c m : ℕ)
    (hl : lookupD ctx.events d = some c) (hmax : ctx.max = m)
    (hc : 1 ≤ c) (hm : 1 ≤ m) (hcm : c ≤ m) :
    (ctx.activity_for_day d =
      (if (c : ℚ) / ((m : ℚ) / 4) ≤ 1 then ActivityGrade.one
       else if (c : ℚ) / ((m : ℚ) / 4) ≤ 2 then ActivityGrade.two
       else if (c : ℚ) / ((m : ℚ) / 4) ≤ 3 then ActivityGrade.three
       else ActivityGrade.four)) ∧
    ctx.activity_for_day d = natGrade c m ∧
    calc_activity_grade 1 1 = ActivityGrade.four ∧
    calc_activity_grade 4 4 = ActivityGrade.four ∧
    calc_activity_grade 4 5 = ActivityGrade.four ∧
    calc_activity_grade 2 3 = ActivityGrade.three ∧
    calc_activity_grade 3 4 = ActivityGrade.three ∧
    calc_activity_grade 3 5 = ActivityGrade.three ∧
    calc_activity_grade 1 2 = ActivityGrade.two ∧
    calc_activity_grade 1 3 = ActivityGrade.two ∧
    calc_activity_grade 2 4 = ActivityGrade.two ∧
    calc_activity_grade 2 5 = ActivityGrade.two ∧
    calc_activity_grade 1 4 = ActivityGrade.one ∧
    calc_activity_grade 1 5 = ActivityGrade.one := by
  refine ⟨?_, ?_, ?_, ?_, ?_, ?_, ?_, ?_, ?_, ?_, ?_, ?_, ?_, ?_⟩
  · unfold Context.activity_for_day
    rw [hl, hmax]
  · rw [activity_eq_natGrade ctx d c hl (by omega), hmax]
  all_goals rw [calc_activity_grade_eq _ _ (by norm_num)] <;> decide

/-- Closed instance of C1 at count 1, maximum 1. -/
theorem C1_grading_formula_witness :
    Context.activity_for_day
      { events := [(⟨2020, 6, 6⟩, 1)], max := 1, today := ⟨2020, 6, 6⟩ }
      ⟨2020, 6, 6⟩ = natGrade 1 1 :=
  (C1_grading_formula _ ⟨2020, 6, 6⟩ 1 1 (by simp [lookupD]) rfl (by norm_num)
    (by norm_num) (by norm_num)).2.1

/-- C6: the grade of an unrecorded date is None, and under the histogram
invariant of the data model a maximum of 0 forces grade None for every date. -/
theorem C6_none_default (ctx : Context) (d : NaiveDate) :
    (lookupD ctx.events d = Option.none →
      ctx.activity_for_day d = ActivityGrade.none) ∧
    (histInv ctx → ctx.max = 0 →
      ctx.activity_for_day d = ActivityGrade.none) := by
  constructor
  · intro h; unfold Context.activity_for_day; rw [h]
  · intro hinv hmax
    rcases h : lookupD ctx.events d with _ | c
    · unfold Context.activity_for_day; rw [h]
    · have h2 := hinv d c h
      rw [hmax] at h2
      exfalso; omega

/-- Closed instance of C6 at an empty context. -/
theorem C6_none_default_witness :
    Context.activity_for_day { events := [], max := 0, today := ⟨2020, 1, 1⟩ }
      ⟨2020, 1, 2⟩ = ActivityGrade.none :=
  (C6_none_default _ _).1 (by simp [lookupD])

/-- C9: for a fixed maximum of at least 1, the grade of a recorded count is
non-decreasing in the count, in the intensity order encoded by rank. -/
theorem C9_grading_monotone (ctx1 ctx2 : Context) (d1 d2 : NaiveDate)
    (a b m : ℕ) (h1 : lookupD ctx1.events d1 = some a)
    (h2 : lookupD ctx2.events d2 = some b) (hm1 : ctx1.max = m)
    (hm2 : ctx2.max = m) (hm : 1 ≤ m) (hab : a ≤ b) :
    (ctx1.activity_for_day d1).rank ≤ (ctx2.activity_for_day d2).rank := by
  rw [activity_eq_natGrade ctx1 d1 a h1 (by omega),
    activity_eq_natGrade ctx2 d2 b h2 (by omega), hm1, hm2]
  exact natGrade_rank_mono a b m hab

/-- Closed instance of C9 at counts 1 and 2 under maximum 2. -/
theorem C9_grading_monotone_witness :
    (Context.activity_for_day
      { events := [(⟨2020, 6, 6⟩, 1)], max := 2, today := ⟨2020, 6, 6⟩ }
      ⟨2020, 6, 6⟩).rank ≤
    (Context.activity_for_day
      { events := [(⟨2020, 6, 6⟩, 2)], max := 2, today := ⟨2020, 6, 6⟩ }
      ⟨2020, 6, 6⟩).rank :=
  C9_grading_monotone _ _ ⟨2020, 6, 6⟩ ⟨2020, 6, 6⟩ 1 2 2 (by simp [lookupD])
    (by simp [lookupD]) rfl rfl (by norm_num) (by norm_num)

theorem ediv12_emod12 (q r : ℤ) (h0 : 0 ≤ r) (h1 : r < 12) :
    (12 * q + r) / 12 = q ∧ (12 * q + r) % 12 = r := by
  constructor
  · rw [add_comm, Int.add_mul_ediv_left r q (by norm_num)]
    rw [Int.ediv_eq_zero_of_lt h0 h1]; ring
  · rw [add_comm, Int.add_mul_emod_self_left]
    exact Int.emod_eq_of_lt h0 h1

theorem idxToYM_of_bounds (q r : ℤ) (h0 : 0 ≤ r) (h1 : r < 12) :
    idxToYM (12 * q + r) = (q, r.toNat + 1) := by
  unfold idxToYM
  rw [(ediv12_emod12 q r h0 h1).1, (ediv12_emod12 q r h0 h1).2]

theorem shiftBackMonths_closed (c : ℕ) :
    ∀ y : ℤ, ∀ m : ℕ, 1 ≤ m → m ≤ 12 →
      shiftBackMonths (y, m) c = idxToYM (monthIdx y m - c) := by
  induction c with
  | zero =>
    intro y m h1 h2
    unfold shiftBackMonths
    rw [show monthIdx y m - ((0 : ℕ) : ℤ) = 12 * y + ((m : ℤ) - 1) by
      unfold monthIdx; push_cast; ring]
    rw [idxToYM_of_bounds y ((m : ℤ) - 1) (by omega) (by omega)]
    have : ((m : ℤ) - 1).toNat + 1 = m := by omega
    rw [this]
  | succ n ih =>
    intro y m h1 h2
    show shiftBackMonths (shiftBackOne (y, m)) n = _
    by_cases hm : m = 1
    · subst hm
      rw [show shiftBackOne ((y : ℤ), (1 : ℕ)) = (y - 1, 12) by simp [shiftBackOne]]
      rw [ih (y - 1) 12 (by norm_num) (by norm_num)]
      unfold monthIdx
      congr 1
      push_cast
      ring
    · rw [show shiftBackOne ((y : ℤ), m) = (y, m - 1) by simp [shiftBackOne, hm]]
      rw [ih y (m - 1) (by omega) (by omega)]
      unfold monthIdx
      congr 1
      have : ((m - 1 : ℕ) : ℤ) = (m : ℤ) - 1 := by omega
      rw [this]
      push_cast
      ring

theorem start_context_closed (y : ℤ) (m c : ℕ) (h1 : 1 ≤ m) (h2 : m ≤ 12) :
    DateSpec.start (DateSpec.YearMonthContext y m c) =
      ⟨(idxToYM (monthIdx y m - c)).1, (idxToYM (monthIdx y m - c)).2, 1⟩ := by
  have hdm : c = 12 * (c / 12) + c % 12 := (Nat.div_add_mod c 12).symm
  have hcast : (c : ℤ) = 12 * ((c / 12 : ℕ) : ℤ) + ((c % 12 : ℕ) : ℤ) := by
    exact_mod_cast hdm
  have hr : (c % 12 : ℕ) < 12 := Nat.mod_lt c (by norm_num)
  simp only [DateSpec.start]
  by_cases hge : c % 12 ≥ m
  · rw [if_pos hge]
    have hidx : monthIdx y m - c =
        12 * (y - ((c / 12 : ℕ) : ℤ) - 1) + ((m : ℤ) - 1 - ((c % 12 : ℕ) : ℤ) + 12) := by
      unfold monthIdx; rw [hcast]; ring
    rw [hidx, idxToYM_of_bounds _ _ (by omega) (by omega)]
    have : ((m : ℤ) - 1 - ((c % 12 : ℕ) : ℤ) + 12).toNat + 1 = 12 - c % 12 + m := by
      omega
    rw [this]
  · rw [if_neg hge]
    push_neg at hge
    have hidx : monthIdx y m - c =
        12 * (y - ((c / 12 : ℕ) : ℤ)) + ((m : ℤ) - 1 - ((c % 12 : ℕ) : ℤ)) := by
      unfold monthIdx; rw [hcast]; ring
    rw [hidx, idxToYM_of_bounds _ _ (by omega) (by omega)]
    have : ((m : ℤ) - 1 - ((c % 12 : ℕ) : ℤ)).toNat + 1 = m - c % 12 := by
      omega
    rw [this]

/-- C2: the start of a YearMonthContext range is the first day of the month
reached by shifting the target month back by the context count, wrapping
through Januaries into earlier years; in particular a context of 3 from
March starts at December 1 of the previous year, and a context of 12 starts
at the same month of the previous year. -/
theorem C2_context_range_start (y : ℤ) (m c : ℕ) (h1 : 1 ≤ m) (h2 : m ≤ 12) :
    DateSpec.start (DateSpec.YearMonthContext y m c) =
      ⟨(shiftBackMonths (y, m) c).1, (shiftBackMonths (y, m) c).2, 1⟩ ∧
    DateSpec.start (DateSpec.YearMonthContext y 3 3) = ⟨y - 1, 12, 1⟩ ∧
    DateSpec.start (DateSpec.YearMonthContext y m 12) = ⟨y - 1, m, 1⟩ := by
  refine ⟨?_, ?_, ?_⟩
  · rw [start_context_closed y m c h1 h2, shiftBackMonths_closed c y m h1 h2]
  · simp only [DateSpec.start]
    norm_num
  · simp only [DateSpec.start]
    rw [if_neg (by omega)]
    norm_num

/-- Closed instance of C2 at March 2020 with context 3. -/
theorem C2_context_range_start_witness :
    DateSpec.start (DateSpec.YearMonthContext 2020 3 3) = ⟨2019, 12, 1⟩ :=
  (C2_context_range_start 2020 3 3 (by norm_num) (by norm_num)).2.1

theorem from_args_invalid_iff (args : List DateArg) (context : Option ℕ)
    (today : NaiveDate) (h : args.length ≤ 2) :
    DateSpec.from_args args context today =
      Except.error CalError.invalidCombination ↔ badCombo args context := by
  rcases args with _ | ⟨a, _ | ⟨b, _ | ⟨x, rest⟩⟩⟩
  · rcases context with _ | c <;> simp [DateSpec.from_args, badCombo]
  · rcases a with m | n
    · rcases context with _ | c <;> simp [DateSpec.from_args, badCombo, sameKind]
    · rcases context with _ | c
      · simp [DateSpec.from_args, badCombo, sameKind]
      · constructor
        · intro _
          exact Or.inr ⟨n, rfl, rfl⟩
        · intro _
          rfl
  · rcases a with m | n <;> rcases b with m2 | n2 <;> rcases context with _ | c
    · exact ⟨fun _ => Or.inl ⟨_, _, rfl, rfl⟩, fun _ => rfl⟩
    · exact ⟨fun _ => Or.inl ⟨_, _, rfl, rfl⟩, fun _ => rfl⟩
    · simp [DateSpec.from_args, badCombo, sameKind]
    · simp [DateSpec.from_args, badCombo, sameKind]
    · simp [DateSpec.from_args, badCombo, sameKind]
    · simp [DateSpec.from_args, badCombo, sameKind]
    · exact ⟨fun _ => Or.inl ⟨_, _, rfl, rfl⟩, fun _ => rfl⟩
    · exact ⟨fun _ => Or.inl ⟨_, _, rfl, rfl⟩, fun _ => rfl⟩
  · simp at h

theorem from_args_no_tooMany (args : List DateArg) (context : Option ℕ)
    (today : NaiveDate) (h : args.length ≤ 2) :
    DateSpec.from_args args context today ≠ Except.error CalError.tooManyArgs := by
  rcases args with _ | ⟨a, _ | ⟨b, _ | ⟨x, rest⟩⟩⟩
  · rcases context with _ | c <;> simp [DateSpec.from_args]
  · rcases a with m | n <;> rcases context with _ | c <;> simp [DateSpec.from_args]
  · rcases a with m | n <;> rcases b with m2 | n2 <;> rcases context with _ | c <;>
      simp [DateSpec.from_args]
  · simp at h

/-- C7: a lone bare number resolves to Year; more than two tokens fail with
the too-many error; with at most two tokens the invalid-combination error
happens exactly on two same-kind tokens or a bare number with a context
count; and every resolver failure is one of those two errors in exactly
those situations. -/
theorem C7_resolver_errors :
    (∀ (n : ℤ) (today : NaiveDate),
      DateSpec.from_args [DateArg.Num n] Option.none today =
        Except.ok (DateSpec.Year n)) ∧
    (∀ (args : List DateArg) (context : Option ℕ) (today : NaiveDate),
      2 < args.length →
      DateSpec.from_args args context today = Except.error CalError.tooManyArgs) ∧
    (∀ (args : List DateArg) (context : Option ℕ) (today : NaiveDate),
      args.length ≤ 2 →
      (DateSpec.from_args args context today =
          Except.error CalError.invalidCombination ↔ badCombo args context)) ∧
    (∀ (args : List DateArg) (context : Option ℕ) (today : NaiveDate)
      (e : CalError), DateSpec.from_args args context today = Except.error e →
      (e = CalError.tooManyArgs ∧ 2 < args.length) ∨
      (e = CalError.invalidCombination ∧ args.length ≤ 2 ∧ badCombo args context)) := by
  refine ⟨?_, ?_, ?_, ?_⟩
  · intro n today
    rfl
  · intro args context today h
    unfold DateSpec.from_args
    rw [if_pos h]
  · exact from_args_invalid_iff
  · intro args context today e herr
    by_cases hl : 2 < args.length
    · left
      refine ⟨?_, hl⟩
      unfold DateSpec.from_args at herr
      rw [if_pos hl] at herr
      injection herr with h2
      exact h2.symm
    · right
      push_neg at hl
      rcases e with _ | _
      · exact absurd herr (from_args_no_tooMany args context today hl)
      · exact ⟨rfl, hl, (from_args_invalid_iff args context today hl).mp herr⟩

/-- Closed instances of the C7 rules. -/
theorem C7_resolver_errors_witness :
    DateSpec.from_args [DateArg.Num 2020] Option.none ⟨2020, 5, 30⟩ =
      Except.ok (DateSpec.Year 2020) ∧
    DateSpec.from_args [DateArg.Num 1, DateArg.Num 2, DateArg.Num 3] Option.none
      ⟨2020, 5, 30⟩ = Except.error CalError.tooManyArgs ∧
    DateSpec.from_args [DateArg.Num 2020] (some 2) ⟨2020, 5, 30⟩ =
      Except.error CalError.invalidCombination :=
  ⟨C7_resolver_errors.1 2020 ⟨2020, 5, 30⟩,
    C7_resolver_errors.2.1 [DateArg.Num 1, DateArg.Num 2, DateArg.Num 3]
      Option.none ⟨2020, 5, 30⟩ (by norm_num),
    (C7_resolver_errors.2.2.1 [DateArg.Num 2020] (some 2) ⟨2020, 5, 30⟩
      (by norm_num)).mpr (Or.inr ⟨2020, rfl, rfl⟩)⟩

/-- C10 counterexample: with no arguments and no context the resolver result
depends on the value obtained from the ambient clock read (the Utc::today()
call inside from_args): two runs at different current dates give different
date specs. -/
theorem C10_clock_dependence_counterexample :
    DateSpec.from_args [] Option.none ⟨2020, 5, 30⟩ ≠
      DateSpec.from_args [] Option.none ⟨2021, 6, 30⟩ := by
  simp [DateSpec.from_args]

/-- C10 amended: the resolver is a deterministic function of the arguments,
the context count and the clock value it reads, and it depends on that
clock value only through its year and month fields. -/
theorem C10_resolver_deterministic (args : List DateArg) (context : Option ℕ)
    (t1 t2 : NaiveDate) (hy : t1.year = t2.year) (hm : t1.month = t2.month) :
    DateSpec.from_args args context t1 = DateSpec.from_args args context t2 := by
  unfold DateSpec.from_args
  rw [hy, hm]

/-- Closed instance of C10 amended. -/
theorem C10_resolver_deterministic_witness :
    DateSpec.from_args [] Option.none ⟨2020, 5, 30⟩ =
      DateSpec.from_args [] Option.none ⟨2020, 5, 31⟩ :=
  C10_resolver_deterministic [] Option.none ⟨2020, 5, 30⟩ ⟨2020, 5, 31⟩ rfl rfl

theorem lookupD_append (m l : List (NaiveDate × ℕ)) (k : NaiveDate) :
    lookupD (m ++ l) k =
      match lookupD m k with
      | some v => some v
      | Option.none => lookupD l k := by
  induction m with
  | nil => simp [lookupD]
  | cons p rest ih =>
    by_cases hp : p.1 = k <;> simp [lookupD, hp, ih]

theorem lookupD_eq_none_of_not_mem (l : List (NaiveDate × ℕ)) (k : NaiveDate)
    (h : k ∉ l.map Prod.fst) : lookupD l k = Option.none := by
  induction l with
  | nil => simp [lookupD]
  | cons p rest ih =>
    rw [List.map_cons, List.mem_cons] at h
    push_neg at h
    simp only [lookupD, if_neg (fun hh : p.1 = k => h.1 hh.symm)]
    exact ih h.2

theorem lookupD_mem (l : List (NaiveDate × ℕ)) (k : NaiveDate) (v : ℕ)
    (h : lookupD l k = some v) : (k, v) ∈ l := by
  induction l with
  | nil => simp [lookupD] at h
  | cons p rest ih =>
    by_cases hp : p.1 = k
    · simp [lookupD, hp] at h
      exact List.mem_cons.mpr (Or.inl (by rw [← hp, ← h]))
    · simp [lookupD, hp] at h
      exact List.mem_cons.mpr (Or.inr (ih h))

theorem lookup_insertKV_self (m : List (NaiveDate × ℕ)) (k : NaiveDate) (v : ℕ) :
    lookupD (insertKV m k v) k = some v := by
  unfold insertKV
  by_cases hs : (lookupD m k).isSome
  · rw [if_pos hs]
    induction m with
    | nil => simp [lookupD] at hs
    | cons p rest ih =>
      by_cases hp : p.1 = k
      · simp [lookupD, hp]
      · simp [lookupD, hp] at hs ⊢
        exact ih hs
  · rw [if_neg hs, lookupD_append]
    simp at hs
    rw [hs]
    simp [lookupD]

theorem lookupD_mapReplace (m : List (NaiveDate × ℕ)) (k x : NaiveDate)
    (v : ℕ) (hx : x ≠ k) :
    lookupD (m.map (fun p => if p.1 = k then (k, v) else p)) x = lookupD m x := by
  induction m with
  | nil => simp [lookupD]
  | cons p rest ih =>
    by_cases hp : p.1 = k
    · have hkx : ¬ k = x := fun h => hx h.symm
      have hpx : ¬ p.1 = x := by rw [hp]; exact hkx
      simp [lookupD, hp, hkx, hpx, ih]
    · by_cases hpx : p.1 = x
      · have hxk : ¬ x = k := hx
        simp [lookupD, hp, hpx, hxk]
      · simp [lookupD, hp, hpx, ih]

theorem lookup_insertKV_other (m : List (NaiveDate × ℕ)) (k x : NaiveDate)
    (v : ℕ) (hx : x ≠ k) : lookupD (insertKV m k v) x = lookupD m x := by
  unfold insertKV
  by_cases hs : (lookupD m k).isSome
  · rw [if_pos hs]
    exact lookupD_mapReplace m k x v hx
  · rw [if_neg hs, lookupD_append]
    rcases h : lookupD m x with _ | w
    · simp [lookupD]
      intro hkx
      exact absurd hkx.symm hx
    · simp

theorem countDate_append (d : NaiveDate) (a b : List NaiveDate) :
    countDate d (a ++ b) = countDate d a + countDate d b := by
  induction a with
  | nil => simp [countDate]
  | cons e rest ih => simp [countDate, ih]; ring

theorem countDate_replicate (d k : NaiveDate) (n : ℕ) :
    countDate d (List.replicate n k) = if k = d then n else 0 := by
  induction n with
  | zero => simp [countDate]
  | succ n ih =>
    rw [List.replicate_succ]
    by_cases h : k = d <;> simp [countDate, h] at ih ⊢ <;> omega

theorem countDate_runsFlatten (runs : List (NaiveDate × ℕ))
    (hnodup : (runs.map Prod.fst).Nodup) (d : NaiveDate) :
    countDate d (runsFlatten runs) =
      match lookupD runs d with
      | some v => v
      | Option.none => 0 := by
  induction runs with
  | nil => simp [runsFlatten, countDate, lookupD]
  | cons p rest ih =>
    rw [List.map_cons, List.nodup_cons] at hnodup
    unfold runsFlatten
    rw [countDate_append, countDate_replicate]
    by_cases hp : p.1 = d
    · rw [if_pos hp]
      have hd : lookupD rest d = Option.none :=
        lookupD_eq_none_of_not_mem rest d (by rw [← hp]; exact hnodup.1)
      rw [ih hnodup.2, hd]
      simp [lookupD, hp]
    · rw [if_neg hp, ih hnodup.2]
      simp [lookupD, hp]

theorem foldl_graphStep_replicate (n : ℕ) (d : NaiveDate) (t mx : ℕ)
    (mp : List (NaiveDate × ℕ)) :
    List.foldl graphStep ⟨some d, t, mx, mp⟩ (List.replicate n d) =
      ⟨some d, t + n, mx, mp⟩ := by
  induction n generalizing t with
  | zero => simp
  | succ n ih =>
    rw [List.replicate_succ, List.foldl_cons]
    have hstep : graphStep ⟨some d, t, mx, mp⟩ d = ⟨some d, t + 1, mx, mp⟩ := by
      simp [graphStep]
    rw [hstep, ih (t + 1)]
    congr 1
    omega

theorem foldl_graphStep_newrun (n : ℕ) (d c : NaiveDate) (hne : d ≠ c)
    (t mx : ℕ) (mp : List (NaiveDate × ℕ)) :
    List.foldl graphStep ⟨some c, t, mx, mp⟩ (List.replicate (n + 1) d) =
      ⟨some d, 1 + n, if t > mx then t else mx, insertKV mp c t⟩ := by
  rw [List.replicate_succ, List.foldl_cons]
  have hstep : graphStep ⟨some c, t, mx, mp⟩ d =
      ⟨some d, 1, if t > mx then t else mx, insertKV mp c t⟩ := by
    simp [graphStep, hne]
  rw [hstep, foldl_graphStep_replicate]

theorem finish_foldl_runs (runs : List (NaiveDate × ℕ)) :
    ∀ (c : NaiveDate) (t mx : ℕ) (mp : List (NaiveDate × ℕ)),
      runsChainOk c runs → (∀ p ∈ runs, 1 ≤ p.2) → 1 ≤ t →
      finishGraph (List.foldl graphStep ⟨some c, t, mx, mp⟩ (runsFlatten runs)) =
        List.foldl specCommit (insertKV mp c t, if t > mx then t else mx) runs := by
  induction runs with
  | nil =>
    intro c t mx mp _ _ ht
    simp [runsFlatten, finishGraph, ht, Nat.lt_of_lt_of_le Nat.zero_lt_one ht]
  | cons p rest ih =>
    intro c t mx mp hchain hpos ht
    rcases p with ⟨d, n⟩
    have hn : 1 ≤ n := hpos (d, n) (List.mem_cons_self _ _)
    have hd : d ≠ c := hchain.1
    unfold runsFlatten
    rw [List.foldl_append]
    rcases Nat.exists_eq_add_of_le hn with ⟨k, hk⟩
    rw [show n = k + 1 by omega]
    rw [foldl_graphStep_newrun k d c hd t mx mp]
    rw [ih d (1 + k) (if t > mx then t else mx) (insertKV mp c t) hchain.2
      (fun q hq => hpos q (List.mem_cons_of_mem _ hq)) (by omega)]
    rw [List.foldl_cons]
    simp only [specCommit]
    rw [Nat.add_comm 1 k]

theorem runsChainOk_of_nodup (runs : List (NaiveDate × ℕ)) :
    ∀ c : NaiveDate, (runs.map Prod.fst).Nodup → c ∉ runs.map Prod.fst →
      runsChainOk c runs := by
  induction runs with
  | nil => intro c _ _; trivial
  | cons p rest ih =>
    intro c hnodup hc
    rw [List.map_cons, List.nodup_cons] at hnodup
    rw [List.map_cons, List.mem_cons] at hc
    push_neg at hc
    exact ⟨fun h => hc.1 h.symm, ih p.1 hnodup.2 hnodup.1⟩

theorem setup_eq_specfold (runs : List (NaiveDate × ℕ))
    (hnodup : (runs.map Prod.fst).Nodup) (hpos : ∀ p ∈ runs, 1 ≤ p.2) :
    setup_graph_map (runsFlatten runs) = List.foldl specCommit ([], 0) runs := by
  rcases runs with _ | ⟨⟨d, n⟩, rest⟩
  · simp [runsFlatten, setup_graph_map, finishGraph]
  · rw [List.map_cons, List.nodup_cons] at hnodup
    have hn : 1 ≤ n := hpos (d, n) (List.mem_cons_self _ _)
    unfold setup_graph_map runsFlatten
    rw [List.foldl_append]
    rcases Nat.exists_eq_add_of_le hn with ⟨k, hk⟩
    rw [show n = k + 1 by omega, List.replicate_succ, List.foldl_cons]
    have hstep : graphStep ⟨Option.none, 0, 0, []⟩ d = ⟨some d, 1, 0, []⟩ := by
      simp [graphStep]
    rw [hstep, foldl_graphStep_replicate]
    rw [finish_foldl_runs rest d (1 + k) 0 []
      (runsChainOk_of_nodup rest d hnodup.2 hnodup.1)
      (fun q hq => hpos q (List.mem_cons_of_mem _ hq)) (by omega)]
    rw [List.foldl_cons]
    simp only [specCommit]
    rw [Nat.add_comm 1 k]

theorem specfold_map_lookup (runs : List (NaiveDate × ℕ)) :
    ∀ (acc : List (NaiveDate × ℕ) × ℕ) (d : NaiveDate),
      (runs.map Prod.fst).Nodup →
      (∀ k ∈ runs.map Prod.fst, lookupD acc.1 k = Option.none) →
      lookupD (List.foldl specCommit acc runs).1 d =
        match lookupD runs d with
        | some v => some v
        | Option.none => lookupD acc.1 d := by
  induction runs with
  | nil => intro acc d _ _; simp [lookupD]
  | cons p rest ih =>
    intro acc d hnodup hdisj
    rcases p with ⟨k, v⟩
    rw [List.map_cons, List.nodup_cons] at hnodup
    rw [List.foldl_cons]
    have hacck : lookupD acc.1 k = Option.none :=
      hdisj k (by rw [List.map_cons]; exact List.mem_cons_self _ _)
    have hdisj2 : ∀ k2 ∈ rest.map Prod.fst,
        lookupD (specCommit acc (k, v)).1 k2 = Option.none := by
      intro k2 hk2
      have hne : k2 ≠ k := by
        intro h; rw [h] at hk2; exact hnodup.1 hk2
      show lookupD (insertKV acc.1 k v) k2 = Option.none
      rw [lookup_insertKV_other acc.1 k k2 v hne]
      exact hdisj k2 (by rw [List.map_cons]; exact List.mem_cons_of_mem _ hk2)
    rw [ih (specCommit acc (k, v)) d hnodup.2 hdisj2]
    by_cases hd : k = d
    · subst hd
      have hrest : lookupD rest k = Option.none :=
        lookupD_eq_none_of_not_mem rest k hnodup.1
      rw [hrest]
      show lookupD (insertKV acc.1 k v) k = _
      rw [lookup_insertKV_self]
      simp [lookupD]
    · have hcons : lookupD ((k, v) :: rest) d = lookupD rest d := by
        simp [lookupD, hd]
      rw [hcons]
      rcases hr : lookupD rest d with _ | w
      · show lookupD (insertKV acc.1 k v) d = _
        rw [lookup_insertKV_other acc.1 k d v (fun h => hd h.symm)]
      · rfl

theorem specfold_max_facts (runs : List (NaiveDate × ℕ)) :
    ∀ (acc : List (NaiveDate × ℕ) × ℕ),
      (runs.map Prod.fst).Nodup →
      (∀ k ∈ runs.map Prod.fst, lookupD acc.1 k = Option.none) →
      (∀ d v, lookupD acc.1 d = some v → v ≤ acc.2) →
      (acc.2 = 0 ∨ ∃ d, lookupD acc.1 d = some acc.2) →
      (∀ d v, lookupD (List.foldl specCommit acc runs).1 d = some v →
          v ≤ (List.foldl specCommit acc runs).2) ∧
      ((List.foldl specCommit acc runs).2 = 0 ∨
        ∃ d, lookupD (List.foldl specCommit acc runs).1 d =
          some (List.foldl specCommit acc runs).2) := by
  induction runs with
  | nil =>
    intro acc _ _ hbound hattain
    exact ⟨hbound, hattain⟩
  | cons p rest ih =>
    intro acc hnodup hdisj hbound hattain
    rcases p with ⟨k, v⟩
    rw [List.map_cons, List.nodup_cons] at hnodup
    rw [List.foldl_cons]
    have hacck : lookupD acc.1 k = Option.none :=
      hdisj k (by rw [List.map_cons]; exact List.mem_cons_self _ _)
    have hdisj2 : ∀ k2 ∈ rest.map Prod.fst,
        lookupD (specCommit acc (k, v)).1 k2 = Option.none := by
      intro k2 hk2
      have hne : k2 ≠ k := by
        intro h; rw [h] at hk2; exact hnodup.1 hk2
      show lookupD (insertKV acc.1 k v) k2 = Option.none
      rw [lookup_insertKV_other acc.1 k k2 v hne]
      exact hdisj k2 (by rw [List.map_cons]; exact List.mem_cons_of_mem _ hk2)
    have hbound2 : ∀ d w, lookupD (specCommit acc (k, v)).1 d = some w →
        w ≤ (specCommit acc (k, v)).2 := by
      intro d w hw
      show w ≤ (if v > acc.2 then v else acc.2)
      by_cases hd : d = k
      · subst hd
        have : lookupD (insertKV acc.1 d v) d = some v := lookup_insertKV_self _ _ _
        rw [show (specCommit acc (d, v)).1 = insertKV acc.1 d v from rfl] at hw
        rw [this] at hw
        cases hw
        split <;> omega
      · rw [show (specCommit acc (k, v)).1 = insertKV acc.1 k v from rfl,
          lookup_insertKV_other acc.1 k d v hd] at hw
        have := hbound d w hw
        split <;> omega
    have hattain2 : (specCommit acc (k, v)).2 = 0 ∨
        ∃ d, lookupD (specCommit acc (k, v)).1 d = some (specCommit acc (k, v)).2 := by
      show (if v > acc.2 then v else acc.2) = 0 ∨ _
      by_cases hv : v > acc.2
      · right
        refine ⟨k, ?_⟩
        show lookupD (insertKV acc.1 k v) k = some (if v > acc.2 then v else acc.2)
        rw [if_pos hv]
        exact lookup_insertKV_self _ _ _
      · rcases hattain with h0 | ⟨d, hd⟩
        · left
          show (if v > acc.2 then v else acc.2) = 0
          rw [if_neg hv, h0]
        · right
          refine ⟨d, ?_⟩
          have hdk : d ≠ k := by
            intro h
            rw [h, hacck] at hd
            cases hd
          show lookupD (insertKV acc.1 k v) d = some (if v > acc.2 then v else acc.2)
          rw [if_neg hv, lookup_insertKV_other acc.1 k d v hdk]
          exact hd
    exact ih (specCommit acc (k, v)) hnodup.2 hdisj2 hbound2 hattain2

/-- C5: on an event sequence decomposed into runs of equal dates with
pairwise distinct run dates (the contiguity assumption) and positive run
lengths, the single pass of setup_graph_map maps exactly the dates occurring
in the sequence to their event counts, and the returned maximum is the
largest mapped count (0 for the empty sequence). -/
theorem C5_histogram_builder (runs : List (NaiveDate × ℕ)) (events : List NaiveDate)
    (hev : events = runsFlatten runs)
    (hnodup : (runs.map Prod.fst).Nodup)
    (hpos : ∀ p ∈ runs, 1 ≤ p.2) :
    (∀ d : NaiveDate, lookupD (setup_graph_map events).1 d =
        (if countDate d events = 0 then Option.none
         else some (countDate d events))) ∧
    (∀ d v, lookupD (setup_graph_map events).1 d = some v →
        v ≤ (setup_graph_map events).2) ∧
    ((setup_graph_map events).2 = 0 ∨
      ∃ d, lookupD (setup_graph_map events).1 d = some (setup_graph_map events).2) := by
  subst hev
  rw [setup_eq_specfold runs hnodup hpos]
  have hdisj : ∀ k ∈ runs.map Prod.fst,
      lookupD (([], 0) : List (NaiveDate × ℕ) × ℕ).1 k = Option.none := by
    intro k _; simp [lookupD]
  refine ⟨?_, ?_, ?_⟩
  · intro d
    rw [specfold_map_lookup runs ([], 0) d hnodup hdisj]
    rw [countDate_runsFlatten runs hnodup d]
    rcases hr : lookupD runs d with _ | v
    · simp [lookupD]
    · have hv : 1 ≤ v := hpos (d, v) (lookupD_mem runs d v hr)
      simp only []
      rw [if_neg (by omega)]
  · exact (specfold_max_facts runs ([], 0) hnodup hdisj
      (by intro d v h; simp [lookupD] at h) (Or.inl rfl)).1
  · exact (specfold_max_facts runs ([], 0) hnodup hdisj
      (by intro d v h; simp [lookupD] at h) (Or.inl rfl)).2

/-- Closed instance of C5 on two runs of lengths 2 and 1. -/
theorem C5_histogram_builder_witness :
    lookupD (setup_graph_map [⟨2020, 5, 1⟩, ⟨2020, 5, 1⟩, ⟨2020, 5, 2⟩]).1
        ⟨2020, 5, 1⟩ =
      (if countDate ⟨2020, 5, 1⟩ [⟨2020, 5, 1⟩, ⟨2020, 5, 1⟩, ⟨2020, 5, 2⟩] = 0
       then Option.none
       else some (countDate ⟨2020, 5, 1⟩
         [⟨2020, 5, 1⟩, ⟨2020, 5, 1⟩, ⟨2020, 5, 2⟩])) :=
  (C5_histogram_builder [(⟨2020, 5, 1⟩, 2), (⟨2020, 5, 2⟩, 1)]
    [⟨2020, 5, 1⟩, ⟨2020, 5, 1⟩, ⟨2020, 5, 2⟩]
    (by simp [runsFlatten])
    (by simp)
    (by intro p hp
        simp only [List.mem_cons, List.not_mem_nil, or_false] at hp
        rcases hp with h | h
        · simp [h]
        · simp [h])).1 ⟨2020, 5, 1⟩

theorem nlCount_replicate (n : ℕ) (c : Char) (h : c ≠ '\n') :
    nlCount (List.replicate n c) = 0 := by
  induction n with
  | zero => simp [nlCount]
  | succ n ih => simp [List.replicate_succ, nlCount, h, ih]

theorem nlCount_zero_not_mem (s : List Char) (h : nlCount s = 0) : '\n' ∉ s := by
  induction s with
  | nil => simp
  | cons c rest ih =>
    simp only [nlCount] at h
    by_cases hc : c = '\n'
    · simp [hc] at h
    · simp only [List.mem_cons]
      push_neg
      exact ⟨fun hh => hc hh.symm, ih (by omega)⟩

theorem getLast?_mem_self (s : List Char) (c : Char) (h : s.getLast? = some c) :
    c ∈ s := by
  induction s with
  | nil => simp at h
  | cons a rest ih =>
    rcases rest with _ | ⟨b, l⟩
    · simp at h
      simp [h]
    · rw [List.getLast?_cons_cons] at h
      exact List.mem_cons_of_mem _ (ih h)

theorem getLast?_ne_newline_of_nlCount_zero (s : List Char) (h : nlCount s = 0) :
    s.getLast? ≠ some '\n' := by
  intro hc
  exact nlCount_zero_not_mem s h (getLast?_mem_self s '\n' hc)

theorem digitChar_ne_newline (n : ℕ) (h : n < 10) :
    Nat.digitChar n ≠ '\n' ∧ Nat.digitChar n ≠ ' ' := by
  interval_cases n <;> exact ⟨by decide, by decide⟩

theorem nlCount_pad2 (d : ℕ) (h : d < 100) : nlCount (pad2 d) = 0 := by
  unfold pad2
  by_cases hd : d < 10
  · simp [hd, nlCount, (digitChar_ne_newline d hd).1]
  · have h1 : d / 10 < 10 := by omega
    have h2 : d % 10 < 10 := by omega
    simp [hd, nlCount, (digitChar_ne_newline _ h1).1, (digitChar_ne_newline _ h2).1]

theorem nlCount_natDigitsAux : ∀ n acc, nlCount acc = 0 →
    nlCount (natDigitsAux n acc) = 0 := by
  intro n
  induction n using Nat.strong_induction_on with
  | _ n ih =>
    intro acc hacc
    match n with
    | 0 => simpa [natDigitsAux] using hacc
    | k + 1 =>
      rw [natDigitsAux]
      apply ih ((k + 1) / 10) (Nat.div_lt_self (Nat.succ_pos k) (by norm_num))
      simp [nlCount, hacc, (digitChar_ne_newline _ (Nat.mod_lt _ (by norm_num))).1]

theorem nlCount_natDigits (n : ℕ) : nlCount (natDigits n) = 0 := by
  unfold natDigits
  by_cases h : n = 0
  · simp [h, nlCount]
  · simp only [h, if_false]
    exact nlCount_natDigitsAux n [] rfl

theorem nlCount_yearStr (y : ℤ) : nlCount (yearStr y) = 0 := by
  unfold yearStr
  have hd := nlCount_natDigits y.natAbs
  have hr := nlCount_replicate (4 - (natDigits y.natAbs).length) '0' (by decide)
  by_cases h : y < 0 <;>
    simp [h, nlCount, nlCount_append, hd, hr]

theorem nlCount_monthName (m : ℕ) : nlCount (monthName m) = 0 := by
  unfold monthName
  split <;> decide

theorem nlCount_center21 (s : List Char) (h : nlCount s = 0) :
    nlCount (center21 s) = 0 := by
  unfold center21
  by_cases hl : 21 ≤ s.length
  · simp [hl, h]
  · simp [hl, nlCount_append, h,
      nlCount_replicate _ ' ' (by decide)]

theorem nlCount_as_term_str (g : ActivityGrade) : nlCount g.as_term_str = 0 := by
  cases g <;> decide

theorem nlCount_ansiReset : nlCount ansiReset = 0 := by decide

theorem nlCount_gutter3 : nlCount gutter3 = 0 := by decide

theorem nlCount_blank21 : nlCount blank21 = 0 := by decide

theorem nlCount_ansiBoldHash : nlCount ansiBoldHash = 0 := by decide

theorem nlCount_dayCellText (ctx : Context) (year : ℤ) (month d : ℕ)
    (hd : d < 100) : nlCount (dayCellText ctx year month d) = 0 := by
  unfold dayCellText
  by_cases hf : ctx.is_future ⟨year, month, d⟩ <;>
    by_cases ht : ctx.is_today ⟨year, month, d⟩ <;>
      simp [hf, ht, nlCount_append, nlCount, nlCount_pad2 d hd,
        nlCount_as_term_str, nlCount_ansiReset, nlCount_ansiBoldHash]

theorem dayCellText_suffix (ctx : Context) (year : ℤ) (month d : ℕ) :
    ∃ u, dayCellText ctx year month d = u ++ ansiReset :=
  ⟨_, rfl⟩

theorem dayCell_nlCount (ctx : Context) (year : ℤ) (month days : ℕ)
    (st : MonthSt) (d : ℕ) (hd : d < 100) :
    nlCount (dayCell ctx year month days st d).w =
      nlCount st.w + (if st.curWeekDay = 6 ∧ d ≠ days then 1 else 0) := by
  unfold dayCell
  by_cases h6 : st.curWeekDay = 6 <;> by_cases hdd : d ≠ days <;>
    simp [h6, hdd, nlCount_append, nlCount, nlCount_dayCellText ctx year month d hd]

theorem dayCell_curWeekDay (ctx : Context) (year : ℤ) (month days : ℕ)
    (st : MonthSt) (d : ℕ) :
    (dayCell ctx year month days st d).curWeekDay = (st.curWeekDay + 1) % 7 := by
  unfold dayCell
  by_cases h6 : st.curWeekDay = 6 <;> simp [h6]

theorem dayCell_weekWritten (ctx : Context) (year : ℤ) (month days : ℕ)
    (st : MonthSt) (d : ℕ) :
    (dayCell ctx year month days st d).weekWritten =
      if st.curWeekDay = 6 then 0 else st.weekWritten + 3 := by
  unfold dayCell
  by_cases h6 : st.curWeekDay = 6 <;> simp [h6]

theorem dayCell_last_suffix (ctx : Context) (year : ℤ) (month days : ℕ)
    (st : MonthSt) :
    ∃ u, (dayCell ctx year month days st days).w = u ++ ansiReset := by
  unfold dayCell
  rcases dayCellText_suffix ctx year month days with ⟨u, hu⟩
  by_cases h6 : st.curWeekDay = 6
  · rw [if_pos h6]
    refine ⟨st.w ++ u, ?_⟩
    show st.w ++ dayCellText ctx year month days ++
      (if days ≠ days then ['\n'] else []) = _
    rw [if_neg (by simp), List.append_nil, hu, ← List.append_assoc]
  · rw [if_neg h6]
    refine ⟨st.w ++ u, ?_⟩
    show st.w ++ dayCellText ctx year month days = _
    rw [hu, ← List.append_assoc]

theorem month_day_loop (ctx : Context) (year : ℤ) (month days : ℕ) :
    ∀ (n a : ℕ) (st : MonthSt), a + n ≤ days → days ≤ 31 →
      st.curWeekDay < 7 → st.weekWritten = 3 * st.curWeekDay →
      nlCount ((List.range' a n).foldl (dayCell ctx year month days) st).w =
          nlCount st.w + (st.curWeekDay + n) / 7 ∧
      ((List.range' a n).foldl (dayCell ctx year month days) st).curWeekDay =
          (st.curWeekDay + n) % 7 ∧
      ((List.range' a n).foldl (dayCell ctx year month days) st).weekWritten =
          3 * (((List.range' a n).foldl (dayCell ctx year month days) st).curWeekDay) := by
  intro n
  induction n with
  | zero =>
    intro a st _ _ hlt hww
    simp only [List.range', List.foldl_nil, Nat.add_zero]
    refine ⟨?_, by rw [Nat.mod_eq_of_lt hlt], hww⟩
    rw [Nat.div_eq_of_lt hlt]
    omega
  | succ n ih =>
    intro a st hle hdays hlt hww
    rw [List.range'_succ, List.foldl_cons]
    have hd100 : a < 100 := by omega
    have hanez : a ≠ days := by omega
    have hcnt := dayCell_nlCount ctx year month days st a hd100
    have hcwd := dayCell_curWeekDay ctx year month days st a
    have hwwd := dayCell_weekWritten ctx year month days st a
    have hlt2 : (dayCell ctx year month days st a).curWeekDay < 7 := by
      rw [hcwd]; exact Nat.mod_lt _ (by norm_num)
    have hww2 : (dayCell ctx year month days st a).weekWritten =
        3 * (dayCell ctx year month days st a).curWeekDay := by
      rw [hwwd, hcwd]
      by_cases h6 : st.curWeekDay = 6
      · simp [h6]
      · rw [if_neg h6, hww]
        omega
    rcases ih (a + 1) (dayCell ctx year month days st a) (by omega) hdays hlt2 hww2
      with ⟨ihc, ihw, ihww⟩
    refine ⟨?_, ?_, ihww⟩
    · rw [ihc, hcnt, hcwd]
      by_cases h6 : st.curWeekDay = 6
      · rw [if_pos ⟨h6, hanez⟩, h6]
        norm_num
        omega
      · rw [if_neg (fun hh => h6 hh.1)]
        have hmod : (st.curWeekDay + 1) % 7 = st.curWeekDay + 1 :=
          Nat.mod_eq_of_lt (by omega)
        rw [hmod]
        omega
    · rw [ihw, hcwd]
      omega

theorem days_in_month_bounds (year : ℤ) (month : ℕ) :
    28 ≤ days_in_month year month ∧ days_in_month year month ≤ 31 := by
  unfold days_in_month
  split_ifs <;> omega

theorem nlCount_flatten_blank (n : ℕ) :
    nlCount ((List.replicate n "   ".data).flatten) = 0 := by
  induction n with
  | zero => simp [nlCount]
  | succ n ih =>
    rw [List.replicate_succ, List.flatten_cons, nlCount_append, ih]
    decide

theorem nlCount_monthSt0 (year : ℤ) (month : ℕ) :
    nlCount (monthSt0 year month).w = 2 := by
  show nlCount (monthHeader year month ++ weekdayHeader ++ _) = 2
  rw [nlCount_append, nlCount_append, nlCount_flatten_blank]
  have h1 : nlCount (monthHeader year month) = 1 := by
    unfold monthHeader
    rw [nlCount_append, nlCount_center21]
    · decide
    · rw [nlCount_append, nlCount_append, nlCount_monthName, nlCount_yearStr]
      decide
  have h2 : nlCount weekdayHeader = 1 := by decide
  omega

theorem monthFoldSt_facts (ctx : Context) (year : ℤ) (month : ℕ) :
    nlCount (monthFoldSt ctx year month).w =
      2 + (firstWeekdayFromSunday year month + days_in_month year month - 1) / 7 ∧
    (monthFoldSt ctx year month).weekWritten = monthWeekWritten year month ∧
    ∃ u, (monthFoldSt ctx year month).w = u ++ ansiReset := by
  have hw7 := firstWeekdayFromSunday_lt year month
  have hdb := days_in_month_bounds year month
  unfold monthFoldSt
  rw [show days_in_month year month = (days_in_month year month - 1) + 1 by omega,
    List.range'_concat]
  rw [show 1 + 1 * (days_in_month year month - 1) = days_in_month year month by omega]
  rw [show (days_in_month year month - 1) + 1 = days_in_month year month by omega]
  rw [List.foldl_append, List.foldl_cons, List.foldl_nil]
  rcases month_day_loop ctx year month (days_in_month year month)
      (days_in_month year month - 1) 1 (monthSt0 year month) (by omega)
      (by omega) (by show firstWeekdayFromSunday year month < 7; omega)
      (by show firstWeekdayFromSunday year month * 3 =
        3 * firstWeekdayFromSunday year month; omega)
    with ⟨hc, hwd, hww⟩
  have hst0 : (monthSt0 year month).curWeekDay = firstWeekdayFromSunday year month := rfl
  rw [hst0] at hc hwd
  set stP := (List.range' 1 (days_in_month year month - 1)).foldl
    (dayCell ctx year month (days_in_month year month)) (monthSt0 year month) with hstP
  rw [nlCount_monthSt0] at hc
  show nlCount (dayCell ctx year month (days_in_month year month) stP
      (days_in_month year month)).w = _ ∧ _ ∧ _
  refine ⟨?_, ?_, ?_⟩
  · rw [dayCell_nlCount ctx year month (days_in_month year month) stP
      (days_in_month year month) (by omega)]
    rw [if_neg (by simp)]
    rw [hc]
    show (2 + (firstWeekdayFromSunday year month + (days_in_month year month - 1)) / 7)
      + 0 = _
    omega
  · rw [dayCell_weekWritten]
    unfold monthWeekWritten
    by_cases h6 : stP.curWeekDay = 6
    · rw [if_pos h6]
      rw [hwd] at h6
      omega
    · rw [if_neg h6, hww, hwd]
      rw [hwd] at h6
      omega
  · exact dayCell_last_suffix ctx year month (days_in_month year month) stP

theorem getLast?_replicate_space :
    ∀ k, (List.replicate k ' ').getLast? = Option.none ∨
      (List.replicate k ' ').getLast? = some ' ' := by
  intro k
  induction k with
  | zero => left; rfl
  | succ n ih =>
    right
    rcases n with _ | m
    · rfl
    · rw [List.replicate_succ, List.replicate_succ, List.getLast?_cons_cons]
      rw [← List.replicate_succ]
      rcases ih with h | h
      · rw [List.replicate_succ] at h
        simp at h
      · rw [List.replicate_succ] at h ⊢
        exact h

theorem monthTermString_struct (ctx : Context) (year : ℤ) (month : ℕ) :
    nlCount (monthTermString ctx year month) =
      2 + (firstWeekdayFromSunday year month + days_in_month year month - 1) / 7 ∧
    (monthWeekWritten year month ≠ 0 →
      ∃ u, monthTermString ctx year month =
        (u ++ ansiReset) ++ List.replicate (21 - monthWeekWritten year month) ' ') ∧
    (monthWeekWritten year month = 0 →
      ∃ u, monthTermString ctx year month = u ++ ansiReset) := by
  rcases monthFoldSt_facts ctx year month with ⟨hc, hww, u, hu⟩
  unfold monthTermString
  rw [hww]
  by_cases h0 : monthWeekWritten year month ≠ 0
  · rw [if_pos h0]
    refine ⟨?_, fun _ => ⟨u, by rw [hu]⟩, fun h => absurd h h0⟩
    rw [nlCount_append, hc, nlCount_replicate _ ' ' (by decide)]
    omega
  · rw [if_neg h0]
    push_neg at h0
    exact ⟨hc, fun h => absurd h0 h, fun _ => ⟨u, hu⟩⟩

theorem monthTermString_ne_nil (ctx : Context) (year : ℤ) (month : ℕ) :
    monthTermString ctx year month ≠ [] ∧
    (monthTermString ctx year month).getLast? ≠ some '\n' := by
  rcases monthTermString_struct ctx year month with ⟨_, hpad, hnopad⟩
  by_cases h0 : monthWeekWritten year month ≠ 0
  · rcases hpad h0 with ⟨u, hu⟩
    rw [hu]
    constructor
    · simp [List.append_eq_nil, ansiReset]
    · rw [List.getLast?_append]
      rcases getLast?_replicate_space (21 - monthWeekWritten year month) with h | h
      · rw [h, List.getLast?_append]
        simp [show ansiReset.getLast? = some 'm' by decide]
      · rw [h]
        simp
  · push_neg at h0
    rcases hnopad h0 with ⟨u, hu⟩
    rw [hu]
    constructor
    · simp [List.append_eq_nil, ansiReset]
    · rw [List.getLast?_append]
      simp [show ansiReset.getLast? = some 'm' by decide]

/-- C3 counterexample: February 2021 renders as 7 lines, not 8. -/
theorem C3_counterexample :
    (linesRust ((DateSpec.YearMonth 2021 2).to_term_string ctxQuiet)).length = 7 := by
  have hfacts := monthTermString_ne_nil ctxQuiet 2021 2
  have hlin : (linesRust ((DateSpec.YearMonth 2021 2).to_term_string ctxQuiet)).length =
      nlCount (monthTermString ctxQuiet 2021 2) + 1 :=
    linesRust_length _ hfacts.1 hfacts.2
  rw [hlin, (monthTermString_struct ctxQuiet 2021 2).1]
  decide

/-- C3 amended: a month block has exactly 2 + (number of calendar week rows)
lines, where the week row count is the ceiling of (first weekday offset +
days) / 7; this is at most 8 and less than 8 for short months. -/
theorem C3_month_block_lines (ctx : Context) (year : ℤ) (month : ℕ) :
    (linesRust ((DateSpec.YearMonth year month).to_term_string ctx)).length =
      2 + (firstWeekdayFromSunday year month + days_in_month year month + 6) / 7 ∧
    (linesRust ((DateSpec.YearMonth year month).to_term_string ctx)).length ≤ 8 := by
  have hfacts := monthTermString_ne_nil ctx year month
  have hlin : (linesRust ((DateSpec.YearMonth year month).to_term_string ctx)).length =
      nlCount (monthTermString ctx year month) + 1 :=
    linesRust_length _ hfacts.1 hfacts.2
  rw [hlin, (monthTermString_struct ctx year month).1]
  have hw7 := firstWeekdayFromSunday_lt year month
  have hdb := days_in_month_bounds year month
  constructor <;> omega

/-- C8: when the month ends on a Saturday the rendered block ends with the
style reset of the last day cell: no right padding spaces and no trailing
newline. -/
theorem C8_saturday_month_end (ctx : Context) (year : ℤ) (month : ℕ)
    (hsat : (firstWeekdayFromSunday year month + days_in_month year month) % 7 = 0) :
    (∃ u, (DateSpec.YearMonth year month).to_term_string ctx = u ++ ansiReset) ∧
    ((DateSpec.YearMonth year month).to_term_string ctx).getLast? ≠ some '\n' ∧
    ((DateSpec.YearMonth year month).to_term_string ctx).getLast? ≠ some ' ' := by
  rcases monthTermString_struct ctx year month with ⟨_, _, hnopad⟩
  have h0 : monthWeekWritten year month = 0 := by
    unfold monthWeekWritten
    omega
  rcases hnopad h0 with ⟨u, hu⟩
  have hshow : (DateSpec.YearMonth year month).to_term_string ctx =
      monthTermString ctx year month := rfl
  rw [hshow, hu]
  have hlast : (u ++ ansiReset).getLast? = some 'm' := by
    rw [List.getLast?_append]
    simp [show ansiReset.getLast? = some 'm' by decide]
  refine ⟨⟨u, rfl⟩, ?_, ?_⟩ <;> rw [hlast] <;> decide

/-- Closed instance of C8 at October 2020, which ends on Saturday the 31st. -/
theorem C8_saturday_month_end_witness :
    ∃ u, (DateSpec.YearMonth 2020 10).to_term_string ctxQuiet = u ++ ansiReset :=
  (C8_saturday_month_end ctxQuiet 2020 10 (by decide)).1

theorem mem_linesRust_no_newline (s : List Char) :
    ∀ l ∈ linesRust s, nlCount l = 0 := by
  intro l hl
  have hsub : linesRust s = splitNl s ∨ linesRust s = (splitNl s).dropLast := by
    unfold linesRust
    rcases h : s.getLast? with _ | c
    · right
      have hs : s = [] := List.getLast?_eq_none_iff.mp h
      subst hs
      rfl
    · show (if c = '\n' then (splitNl s).dropLast else splitNl s) = _ ∨
        (if c = '\n' then (splitNl s).dropLast else splitNl s) = _
      by_cases hc : c = '\n'
      · right; rw [if_pos hc]
      · left; rw [if_neg hc]
  rcases hsub with h2 | h2 <;> rw [h2] at hl
  · exact mem_splitNl_no_newline s l hl
  · exact mem_splitNl_no_newline s l (List.mem_of_mem_dropLast hl)

theorem nlCount_lineAt (s : List Char) (i : ℕ) :
    nlCount (((linesRust s).drop i).headD blank21) = 0 := by
  rcases h : (linesRust s).drop i with _ | ⟨l, ls⟩
  · simp [nlCount_blank21]
  · have hmem : l ∈ linesRust s :=
      List.mem_of_mem_drop (by rw [h]; exact List.mem_cons_self _ _)
    simp [mem_linesRust_no_newline s l hmem]

theorem joinSep_cons_of_ne_nil (sep x : List Char) (l : List (List Char))
    (h : l ≠ []) : joinSep sep (x :: l) = x ++ sep ++ joinSep sep l := by
  rcases l with _ | ⟨y, ys⟩
  · exact absurd rfl h
  · rfl

theorem nlCount_joinSep (sep : List Char) (l : List (List Char))
    (hsep : nlCount sep = 0) (h : ∀ x ∈ l, nlCount x = 0) :
    nlCount (joinSep sep l) = 0 := by
  induction l with
  | nil => rfl
  | cons x rest ih =>
    rcases rest with _ | ⟨y, ys⟩
    · exact h x (List.mem_cons_self _ _)
    · show nlCount (x ++ sep ++ joinSep sep (y :: ys)) = 0
      rw [nlCount_append, nlCount_append, hsep,
        h x (List.mem_cons_self _ _),
        ih (fun z hz => h z (List.mem_cons_of_mem _ hz))]

theorem nlCount_mergeRow (bs : List (List (List Char)))
    (h : ∀ b ∈ bs, ∀ l ∈ b, nlCount l = 0) (i : ℕ) :
    nlCount (joinSep gutter3 (bs.map (fun b => (b.drop i).headD blank21))) = 0 := by
  apply nlCount_joinSep _ _ nlCount_gutter3
  intro x hx
  rw [List.mem_map] at hx
  rcases hx with ⟨b, hb, hbx⟩
  rw [← hbx]
  rcases hd : b.drop i with _ | ⟨l, ls⟩
  · simp [nlCount_blank21]
  · have : l ∈ b := List.mem_of_mem_drop (by rw [hd]; exact List.mem_cons_self _ _)
    simp [h b hb l this]

theorem splitNl_mergeRowsFrom (n : ℕ) :
    ∀ bs : List (List (List Char)), (∀ b ∈ bs, ∀ l ∈ b, nlCount l = 0) →
      splitNl (mergeRowsFrom bs n) =
        (List.range (n + 1)).map (fun i =>
          joinSep gutter3 (bs.map (fun b => (b.drop i).headD blank21))) := by
  induction n with
  | zero =>
    intro bs h
    show splitNl (joinSep gutter3 (bs.map (fun b => b.headD blank21))) = _
    rw [show List.range 1 = [0] from rfl, List.map_cons, List.map_nil]
    have h0 := nlCount_mergeRow bs h 0
    simp only [List.drop_zero] at h0
    rw [splitNl_of_no_newline _ h0]
    simp only [List.drop_zero]
  | succ n ih =>
    intro bs h
    have htail : ∀ b ∈ bs.map List.tail, ∀ l ∈ b, nlCount l = 0 := by
      intro b hb l hl
      rw [List.mem_map] at hb
      rcases hb with ⟨b0, hb0, hbb⟩
      exact h b0 hb0 l (by rw [← hbb] at hl; exact List.mem_of_mem_tail hl)
    have h0 := nlCount_mergeRow bs h 0
    simp only [List.drop_zero] at h0
    have hrow0 := splitNl_of_no_newline _ h0
    have hstep : splitNl (mergeRowsFrom bs (n + 1)) =
        joinSep gutter3 (bs.map (fun b => b.headD blank21)) ::
          (List.range (n + 1)).map (fun i =>
            joinSep gutter3 ((bs.map List.tail).map
              (fun b => (b.drop i).headD blank21))) := by
      show splitNl (joinSep gutter3 (bs.map (fun b => b.headD blank21)) ++
          '\n' :: mergeRowsFrom (bs.map List.tail) n) = _
      rw [splitNl_append_newline, ih (bs.map List.tail) htail, hrow0]
      rfl
    rw [hstep]
    conv_rhs => rw [List.range_succ_eq_map, List.map_cons]
    congr 1
    rw [List.map_map]
    apply List.map_congr_left
    intro i _
    show joinSep gutter3 ((bs.map List.tail).map (fun b => (b.drop i).headD blank21)) =
      joinSep gutter3 (bs.map (fun b => (b.drop (i + 1)).headD blank21))
    rw [List.map_map]
    congr 1
    apply List.map_congr_left
    intro b _
    show ((List.tail b).drop i).headD blank21 = (b.drop (i + 1)).headD blank21
    rw [← List.drop_one, List.drop_drop, Nat.add_comm 1 i]

theorem row_tail_eq (bs : List (List (List Char))) (i : ℕ) :
    joinSep gutter3 ((bs.map List.tail).map (fun b => (b.drop i).headD blank21)) =
      joinSep gutter3 (bs.map (fun b => (b.drop (i + 1)).headD blank21)) := by
  rw [List.map_map]
  congr 1
  apply List.map_congr_left
  intro b _
  show ((List.tail b).drop i).headD blank21 = (b.drop (i + 1)).headD blank21
  rw [← List.drop_one, List.drop_drop, Nat.add_comm 1 i]

theorem blocks_tail_no_newline (bs : List (List (List Char)))
    (h : ∀ b ∈ bs, ∀ l ∈ b, nlCount l = 0) :
    ∀ b ∈ bs.map List.tail, ∀ l ∈ b, nlCount l = 0 := by
  intro b hb l hl
  rw [List.mem_map] at hb
  rcases hb with ⟨b0, hb0, hbb⟩
  exact h b0 hb0 l (by rw [← hbb] at hl; exact List.mem_of_mem_tail hl)

theorem append_cons_getLast (a : List Char) (c : Char) (b : List Char)
    (hb : b ≠ []) : (a ++ c :: b).getLast? = b.getLast? := by
  rw [List.getLast?_append]
  have hcons : (c :: b).getLast? = b.getLast? := by
    rcases b with _ | ⟨y, ys⟩
    · exact absurd rfl hb
    · rw [List.getLast?_cons_cons]
  rw [hcons]
  rcases hlast : b.getLast? with _ | x
  · exact absurd (List.getLast?_eq_none_iff.mp hlast) hb
  · rfl

theorem mergeRowsFrom_getLast_ne (n : ℕ) :
    ∀ bs : List (List (List Char)),
      (∀ i, joinSep gutter3 (bs.map (fun b => (b.drop i).headD blank21)) ≠ []) →
      (∀ b ∈ bs, ∀ l ∈ b, nlCount l = 0) →
      mergeRowsFrom bs n ≠ [] ∧ (mergeRowsFrom bs n).getLast? ≠ some '\n' := by
  induction n with
  | zero =>
    intro bs hrows h
    have hcnt := nlCount_mergeRow bs h 0
    constructor
    · exact hrows 0
    · exact getLast?_ne_newline_of_nlCount_zero _ hcnt
  | succ n ih =>
    intro bs hrows h
    have hrowsT : ∀ i, joinSep gutter3
        ((bs.map List.tail).map (fun b => (b.drop i).headD blank21)) ≠ [] := by
      intro i
      rw [row_tail_eq]
      exact hrows (i + 1)
    rcases ih (bs.map List.tail) hrowsT (blocks_tail_no_newline bs h) with ⟨hne, hlast⟩
    constructor
    · show joinSep gutter3 (bs.map (fun b => b.headD blank21)) ++
        '\n' :: mergeRowsFrom (bs.map List.tail) n ≠ []
      intro hcon
      rw [List.append_eq_nil] at hcon
      cases hcon.2
    · show (joinSep gutter3 (bs.map (fun b => b.headD blank21)) ++
        '\n' :: mergeRowsFrom (bs.map List.tail) n).getLast? ≠ some '\n'
      rw [append_cons_getLast _ _ _ hne]
      exact hlast

theorem joinSep3_ne_nil (x y z : List Char) : joinSep gutter3 [x, y, z] ≠ [] := by
  intro hcon
  rw [show joinSep gutter3 [x, y, z] = x ++ gutter3 ++ (y ++ gutter3 ++ z) from rfl]
    at hcon
  rw [List.append_eq_nil, List.append_eq_nil] at hcon
  exact absurd hcon.1.2 (by decide)

theorem blocks_no_newline (ctx : Context) (g : List (ℤ × ℕ)) :
    ∀ b ∈ g.map (fun p => linesRust (monthTermString ctx p.1 p.2)),
      ∀ l ∈ b, nlCount l = 0 := by
  intro b hb l hl
  rw [List.mem_map] at hb
  rcases hb with ⟨p, _, hpb⟩
  rw [← hpb] at hl
  exact mem_linesRust_no_newline _ l hl

theorem merge_months3_facts (ctx : Context) (p1 p2 p3 : ℤ × ℕ) :
    merge_months ctx [p1, p2, p3] ≠ [] ∧
    (merge_months ctx [p1, p2, p3]).getLast? ≠ some '\n' ∧
    linesRust (merge_months ctx [p1, p2, p3]) =
      (List.range 8).map (mergeRowAt ctx [p1, p2, p3]) ∧
    (linesRust (merge_months ctx [p1, p2, p3])).length = 8 := by
  have hrows : ∀ i, joinSep gutter3
      (([p1, p2, p3].map (fun p => linesRust (monthTermString ctx p.1 p.2))).map
        (fun b => (b.drop i).headD blank21)) ≠ [] := by
    intro i
    exact joinSep3_ne_nil _ _ _
  rcases mergeRowsFrom_getLast_ne MONTH_LINES _ hrows (blocks_no_newline ctx [p1, p2, p3])
    with ⟨hne0, hlast0⟩
  have hne : merge_months ctx [p1, p2, p3] ≠ [] := hne0
  have hlast : (merge_months ctx [p1, p2, p3]).getLast? ≠ some '\n' := hlast0
  have hsplit : splitNl (merge_months ctx [p1, p2, p3]) =
      (List.range 8).map (mergeRowAt ctx [p1, p2, p3]) := by
    unfold merge_months
    rw [splitNl_mergeRowsFrom MONTH_LINES _ (blocks_no_newline ctx [p1, p2, p3])]
    apply List.map_congr_left
    intro i _
    unfold mergeRowAt
    rw [List.map_map]
    rfl
  have hlines : linesRust (merge_months ctx [p1, p2, p3]) =
      (List.range 8).map (mergeRowAt ctx [p1, p2, p3]) := by
    rw [linesRust_eq_splitNl _ hne hlast, hsplit]
  refine ⟨hne, hlast, hlines, ?_⟩
  rw [hlines]
  simp

theorem append_cons_ne_nil (a : List Char) (c : Char) (b : List Char) :
    a ++ c :: b ≠ [] := by
  intro h
  rw [List.append_eq_nil] at h
  cases h.2

theorem year_months_eq (year : ℤ) :
    (List.range' 1 12).map (fun m => ((year : ℤ), m)) =
      [(year, 1), (year, 2), (year, 3), (year, 4), (year, 5), (year, 6),
       (year, 7), (year, 8), (year, 9), (year, 10), (year, 11), (year, 12)] := rfl

theorem year_render_eq (ctx : Context) (year : ℤ) :
    (DateSpec.Year year).to_term_string ctx =
      ((merge_months ctx [(year, 1), (year, 2), (year, 3)] ++
        '\n' :: merge_months ctx [(year, 4), (year, 5), (year, 6)]) ++
        '\n' :: merge_months ctx [(year, 7), (year, 8), (year, 9)]) ++
        '\n' :: merge_months ctx [(year, 10), (year, 11), (year, 12)] := by
  have h1 := (merge_months3_facts ctx (year, 1) (year, 2) (year, 3)).1
  show chunk_months ctx ((List.range' 1 12).map (fun m => ((year : ℤ), m))) = _
  rw [year_months_eq]
  show ([merge_months ctx [(year, 1), (year, 2), (year, 3)],
      merge_months ctx [(year, 4), (year, 5), (year, 6)],
      merge_months ctx [(year, 7), (year, 8), (year, 9)],
      merge_months ctx [(year, 10), (year, 11), (year, 12)]].foldl
    (fun a b => if a = [] then a ++ b else a ++ '\n' :: b) []) = _
  rw [List.foldl_cons, List.foldl_cons, List.foldl_cons, List.foldl_cons,
    List.foldl_nil]
  rw [if_pos rfl, List.nil_append]
  rw [if_neg h1]
  rw [if_neg (append_cons_ne_nil _ _ _)]
  rw [if_neg (append_cons_ne_nil _ _ _)]

theorem year_render_splitNl (ctx : Context) (year : ℤ) :
    splitNl ((DateSpec.Year year).to_term_string ctx) =
      splitNl (merge_months ctx [(year, 1), (year, 2), (year, 3)]) ++
      (splitNl (merge_months ctx [(year, 4), (year, 5), (year, 6)]) ++
      (splitNl (merge_months ctx [(year, 7), (year, 8), (year, 9)]) ++
      splitNl (merge_months ctx [(year, 10), (year, 11), (year, 12)]))) := by
  rw [year_render_eq]
  rw [splitNl_append_newline, splitNl_append_newline, splitNl_append_newline]
  rw [List.append_assoc, List.append_assoc]

theorem year_render_linesRust (ctx : Context) (year : ℤ) :
    linesRust ((DateSpec.Year year).to_term_string ctx) =
      splitNl (merge_months ctx [(year, 1), (year, 2), (year, 3)]) ++
      (splitNl (merge_months ctx [(year, 4), (year, 5), (year, 6)]) ++
      (splitNl (merge_months ctx [(year, 7), (year, 8), (year, 9)]) ++
      splitNl (merge_months ctx [(year, 10), (year, 11), (year, 12)]))) := by
  have h4 := merge_months3_facts ctx (year, 10) (year, 11) (year, 12)
  have hne : (DateSpec.Year year).to_term_string ctx ≠ [] := by
    rw [year_render_eq]
    exact append_cons_ne_nil _ _ _
  have hlast : ((DateSpec.Year year).to_term_string ctx).getLast? ≠ some '\n' := by
    rw [year_render_eq, append_cons_getLast _ _ _ h4.1]
    exact h4.2.1
  rw [linesRust_eq_splitNl _ hne hlast]
  exact year_render_splitNl ctx year

theorem splitNl_merge3_length (ctx : Context) (p1 p2 p3 : ℤ × ℕ) :
    (splitNl (merge_months ctx [p1, p2, p3])).length = 8 := by
  rcases merge_months3_facts ctx p1 p2 p3 with ⟨hne, hlast, hlines, hlen⟩
  rw [← linesRust_eq_splitNl _ hne hlast]
  exact hlen

/-- C4 amended: the Year rendering chunks the twelve months in order into
four groups of three; each group merges the same-indexed lines of its month
blocks joined by the three column gutter with a 21 column blank for an
exhausted block, giving exactly MONTH_LINES + 1 = 8 lines per group; and
the groups are joined by a single newline (no separating blank line), for
32 lines in total. -/
theorem C4_year_layout (ctx : Context) (year : ℤ) :
    ((DateSpec.Year year).to_term_string ctx =
      ((merge_months ctx [(year, 1), (year, 2), (year, 3)] ++
        '\n' :: merge_months ctx [(year, 4), (year, 5), (year, 6)]) ++
        '\n' :: merge_months ctx [(year, 7), (year, 8), (year, 9)]) ++
        '\n' :: merge_months ctx [(year, 10), (year, 11), (year, 12)]) ∧
    (∀ g ∈ chunks3 ((List.range' 1 12).map (fun m => ((year : ℤ), m))),
      linesRust (merge_months ctx g) = (List.range 8).map (mergeRowAt ctx g) ∧
      (linesRust (merge_months ctx g)).length = 8) ∧
    (linesRust ((DateSpec.Year year).to_term_string ctx)).length = 32 := by
  refine ⟨year_render_eq ctx year, ?_, ?_⟩
  · intro g hg
    rw [year_months_eq] at hg
    have hg2 : g = [(year, 1), (year, 2), (year, 3)] ∨
        g = [(year, 4), (year, 5), (year, 6)] ∨
        g = [(year, 7), (year, 8), (year, 9)] ∨
        g = [(year, 10), (year, 11), (year, 12)] := by
      rw [show chunks3 [(year, 1), (year, 2), (year, 3), (year, 4), (year, 5),
          (year, 6), (year, 7), (year, 8), (year, 9), (year, 10), (year, 11),
          (year, 12)] =
        [[(year, 1), (year, 2), (year, 3)], [(year, 4), (year, 5), (year, 6)],
         [(year, 7), (year, 8), (year, 9)],
         [(year, 10), (year, 11), (year, 12)]] from rfl] at hg
      simpa using hg
    rcases hg2 with h | h | h | h <;> subst h
    · exact ⟨(merge_months3_facts ctx _ _ _).2.2.1,
        (merge_months3_facts ctx _ _ _).2.2.2⟩
    · exact ⟨(merge_months3_facts ctx _ _ _).2.2.1,
        (merge_months3_facts ctx _ _ _).2.2.2⟩
    · exact ⟨(merge_months3_facts ctx _ _ _).2.2.1,
        (merge_months3_facts ctx _ _ _).2.2.2⟩
    · exact ⟨(merge_months3_facts ctx _ _ _).2.2.1,
        (merge_months3_facts ctx _ _ _).2.2.2⟩
  · rw [year_render_linesRust]
    rw [List.length_append, List.length_append, List.length_append]
    rw [splitNl_merge3_length, splitNl_merge3_length, splitNl_merge3_length,
      splitNl_merge3_length]

/-- C4 counterexample: the Year 2020 rendering has 32 lines, not the 35 that
four rows of 8 lines separated by blank lines would give; its ninth line,
which would be the first blank separator, is the nonempty header row of the
second month group. -/
theorem C4_counterexample :
    (linesRust ((DateSpec.Year 2020).to_term_string ctxQuiet)).length = 32 ∧
    (linesRust ((DateSpec.Year 2020).to_term_string ctxQuiet)).getD 8 [] ≠ [] := by
  constructor
  · rw [year_render_linesRust]
    rw [List.length_append, List.length_append, List.length_append]
    rw [splitNl_merge3_length, splitNl_merge3_length, splitNl_merge3_length,
      splitNl_merge3_length]
  · rw [year_render_linesRust]
    have hlen : (splitNl (merge_months ctxQuiet
        [((2020 : ℤ), 1), (2020, 2), (2020, 3)])).length = 8 :=
      splitNl_merge3_length _ _ _ _
    rw [List.getD_eq_getElem?_getD, List.getElem?_append_right hlen.le, hlen]
    rcases merge_months3_facts ctxQuiet ((2020 : ℤ), 4) ((2020 : ℤ), 5)
      ((2020 : ℤ), 6) with ⟨hne, hlast, hlines, _⟩
    have hsp : splitNl (merge_months ctxQuiet [((2020 : ℤ), 4), (2020, 5), (2020, 6)]) =
        (List.range 8).map (mergeRowAt ctxQuiet [((2020 : ℤ), 4), (2020, 5), (2020, 6)]) := by
      rw [← linesRust_eq_splitNl _ hne hlast]
      exact hlines
    rw [hsp]
    rw [show List.range 8 = 0 :: [1, 2, 3, 4, 5, 6, 7] from rfl, List.map_cons]
    rw [List.cons_append]
    rw [List.getElem?_cons_zero, Option.getD_some]
    exact joinSep3_ne_nil _ _ _

